import Mathlib

/-!
Verification of the natural-language specification of the VAJointSurv core
(`src/bases.h` and `src/test-survival-term.cpp`) against a shallow Lean
embedding of the code.

The basis expansions of `bases.h` are embedded polymorphically over a linear
ordered field `K` (the C++ code computes with `double`; the spec reads the
arithmetic as real-number arithmetic).  Buffers (`double *out`) are modelled as
`List K`; an array read `a[i]` becomes `List.getD a i 0` and a write becomes
`List.set`.  Because the C++ code can divide by zero (IEEE non-finite values),
every spline evaluation result carries a `Bool` that records whether a division
with zero denominator was performed; this models "a non-finite value is
produced and propagated" without modelling IEEE arithmetic itself.  Evaluation
entry points that can throw (`bs::operator()`) return `Except String`.
-/

set_option maxRecDepth 1000000

namespace VAJS

variable {K : Type*} [LinearOrderedField K]

/-! ### SplineBasis (bases.h lines 83-257) -/

/-- Configuration of a `SplineBasis`: the `order` and the knot vector, the
fields fixed at construction (bases.h lines 85-93). -/
structure SplineB (K : Type*) where
  order : ℕ
  knots : List K

/-- Number of coefficients, `nknots > order ? nknots - order : 0`
(bases.h line 90). -/
def SplineB.ncoef (sb : SplineB K) : ℕ :=
  if sb.order < sb.knots.length then sb.knots.length - sb.order else 0

/-- The `ordm1 = order - 1` field (bases.h line 86). -/
def SplineB.ordm1 (sb : SplineB K) : ℕ := sb.order - 1

/-- The `n_basis()` member of `SplineBasis` (bases.h line 95). -/
def SplineB.nBasis (sb : SplineB K) : ℕ := sb.ncoef

/-- The `n_wmem()` member of `SplineBasis` (bases.h line 99). -/
def SplineB.nWmem (sb : SplineB K) : ℕ := 2 * sb.ordm1 + 2 * sb.order

/-- The loop of `set_cursor` (bases.h lines 120-125): scan the knots in order;
`if (knots[i] >= x) curs = i; if (knots[i] > x) break;`. -/
def setCursorLoop (x : K) : List K → ℕ → ℕ → ℕ
  | [], _, curs => curs
  | k :: ks, i, curs =>
    let curs' := if x ≤ k then i else curs
    if x < k then curs' else setCursorLoop x ks (i + 1) curs'

/-- The `set_cursor` lambda (bases.h lines 116-133), returning the cursor and
the `boundary` flag. -/
def SplineB.setCursor (sb : SplineB K) (x : K) : ℕ × Bool :=
  let curs := setCursorLoop x sb.knots 0 0
  if sb.ncoef < curs then
    (if x = sb.knots.getD sb.ncoef 0 then (sb.ncoef, true) else (curs, false))
  else (curs, false)

/-- The `rdel` difference table of `diff_table` (bases.h line 137):
`rdel[i] = knots[curs + i] - x`.  Modelled as a function of the index. -/
def SplineB.rdel (sb : SplineB K) (curs : ℕ) (x : K) (i : ℕ) : K :=
  sb.knots.getD (curs + i) 0 - x

/-- The `ldel` difference table of `diff_table` (bases.h line 138):
`ldel[i] = x - knots[curs - (i + 1)]`. -/
def SplineB.ldel (sb : SplineB K) (curs : ℕ) (x : K) (i : ℕ) : K :=
  x - sb.knots.getD (curs - (i + 1)) 0

/-- The `set_no_div_zero` scan (bases.h lines 233-256): `no_div_zero` is true
iff no denominator `rdel[r] + ldel[j-1-r] = knots[curs+r] - knots[curs-(j-r)]`
is zero for any cursor in `[order, end_curs)`.  The constructor of
`SplineBasis` (bases.cpp, not part of the sources) sets the `no_div_zero`
field to this value, per the spec's "detected once at construction". -/
def SplineB.noDivZero (sb : SplineB K) : Bool :=
  let endCurs :=
    if sb.ordm1 < sb.knots.length then sb.knots.length - sb.ordm1 else sb.order
  (List.range' sb.order (endCurs - sb.order)).all fun curs =>
    (List.range' 1 sb.ordm1).all fun j =>
      (List.range j).all fun r =>
        decide (sb.knots.getD (curs + r) 0 - sb.knots.getD (curs - (j - r)) 0 ≠ 0)

/-- Inner loop (over `r`) of the branch-free fast path of `basis_funcs`
(bases.h lines 169-177).  State: the `b` buffer, `saved`, and the
division-by-zero flag.  The remaining iteration count is the second `ℕ`. -/
def bfInnerFast (sb : SplineB K) (curs : ℕ) (x : K) (j : ℕ) :
    ℕ → ℕ → List K × K × Bool → List K × K × Bool
  | _, 0, st => st
  | r, n + 1, (b, saved, flag) =>
    let den := sb.rdel curs x r + sb.ldel curs x (j - 1 - r)
    let term := b.getD r 0 / den
    bfInnerFast sb curs x j (r + 1) n
      (b.set r (saved + sb.rdel curs x r * term),
       sb.ldel curs x (j - 1 - r) * term,
       flag || decide (den = 0))

/-- Inner loop (over `r`) of the zero-guarded path of `basis_funcs`
(bases.h lines 181-196): when the denominator is zero no division is
performed; `if (r != 0 || rdel[r] != 0) b[r] = saved; saved = 0;`. -/
def bfInnerGuard (sb : SplineB K) (curs : ℕ) (x : K) (j : ℕ) :
    ℕ → ℕ → List K × K × Bool → List K × K × Bool
  | _, 0, st => st
  | r, n + 1, (b, saved, flag) =>
    let den := sb.rdel curs x r + sb.ldel curs x (j - 1 - r)
    if den ≠ 0 then
      let term := b.getD r 0 / den
      bfInnerGuard sb curs x j (r + 1) n
        (b.set r (saved + sb.rdel curs x r * term),
         sb.ldel curs x (j - 1 - r) * term, flag)
    else
      bfInnerGuard sb curs x j (r + 1) n
        ((if r ≠ 0 ∨ sb.rdel curs x r ≠ 0 then b.set r saved else b), 0, flag)

/-- Outer loop (over `j = 1, ..., ordm1`) of `basis_funcs`; `b[j] = saved`
after each inner loop (bases.h lines 168-196).  `fast` selects between the
two inner loops. -/
def bfOuter (sb : SplineB K) (curs : ℕ) (x : K) (fast : Bool) :
    ℕ → ℕ → List K × Bool → List K × Bool
  | _, 0, st => st
  | j, m + 1, (b, flag) =>
    let st :=
      if fast then bfInnerFast sb curs x j 0 j (b, 0, flag)
      else bfInnerGuard sb curs x j 0 j (b, 0, flag)
    bfOuter sb curs x fast (j + 1) m (st.1.set j st.2.1, st.2.2)

/-- The `basis_funcs` lambda (bases.h lines 165-197): `b[0] = 1`, then the
triangular recurrence, on the fast path when `no_div_zero` holds and on the
zero-guarded path otherwise. -/
def SplineB.basisFuncs (sb : SplineB K) (curs : ℕ) (x : K) : List K × Bool :=
  let b0 := (List.replicate sb.order (0 : K)).set 0 1
  bfOuter sb curs x sb.noDivZero 1 sb.ordm1 (b0, false)

/-- One pass of the first loop of `slow_evaluate` (bases.h lines 148-150):
`a[apt] = outer * (a[apt+1] - a[apt]) / (knots[lpt+outer] - knots[lpt])`.
The division is unguarded in the source (the `FIXME: divides by zero`
comment); a zero denominator sets the flag. -/
def sp1go (sb : SplineB K) (curs outer : ℕ) :
    ℕ → ℕ → List K × Bool → List K × Bool
  | _, 0, st => st
  | apt, n + 1, (a, fl) =>
    let lpt := curs - outer + apt
    let den := sb.knots.getD (lpt + outer) 0 - sb.knots.getD lpt 0
    sp1go sb curs outer (apt + 1) n
      (a.set apt ((outer : K) * (a.getD (apt + 1) 0 - a.getD apt 0) / den),
       fl || decide (den = 0))

/-- The `while(nder--)` loop of `slow_evaluate` (bases.h lines 147-152):
`nder` passes with `outer` decreasing from `ordm1`. -/
def sp1loop (sb : SplineB K) (curs : ℕ) :
    ℕ → ℕ → List K × Bool → List K × Bool
  | _, 0, st => st
  | outer, n + 1, st =>
    sp1loop sb curs (outer - 1) n (sp1go sb curs outer 0 outer st)

/-- Inner loop of the second phase of `slow_evaluate` (bases.h lines 154-159):
`a[apt] = (a[apt+1] * ldel[lpt] + a[apt] * rdel[rpt]) / (rdel[rpt] + ldel[lpt])`
with `lpt` descending and `rpt = apt` ascending; again unguarded division. -/
def sp2go (sb : SplineB K) (curs : ℕ) (x : K) (outer : ℕ) :
    ℕ → ℕ → List K × Bool → List K × Bool
  | _, 0, st => st
  | apt, n + 1, (a, fl) =>
    let lpt := outer - apt
    let den := sb.rdel curs x apt + sb.ldel curs x lpt
    sp2go sb curs x outer (apt + 1) n
      (a.set apt
        ((a.getD (apt + 1) 0 * sb.ldel curs x lpt + a.getD apt 0 * sb.rdel curs x apt) / den),
       fl || decide (den = 0))

/-- The `while(outer--)` loop of the second phase of `slow_evaluate`
(bases.h lines 153-159): the body runs with `outer` taking the values
`outer0 - 1, ..., 0`, each time over `apt = 0, ..., outer`. -/
def sp2loop (sb : SplineB K) (curs : ℕ) (x : K) :
    ℕ → List K × Bool → List K × Bool
  | 0, st => st
  | o + 1, st => sp2loop sb curs x o (sp2go sb curs x o 0 (o + 1) st)

/-- The `slow_evaluate` lambda (bases.h lines 142-161) applied to the `i`-th
unit start vector `a = e_i` that the caller sets up (bases.h lines 210-214). -/
def SplineB.slowEval (sb : SplineB K) (curs : ℕ) (bdry : Bool) (x : K)
    (nder : ℕ) (i : ℕ) : K × Bool :=
  if bdry ∧ nder = sb.ordm1 then (0, false)
  else
    let a0 := (List.replicate sb.order (0 : K)).set i 1
    let st := sp1loop sb curs sb.ordm1 nder (a0, false)
    let st2 := sp2loop sb curs x (sb.ordm1 - nder) st
    (st2.1.getD 0 0, st2.2)

/-- The loop `for (i...) out[i + io] = slow_evaluate(x, ders)` of the
derivative branch (bases.h lines 210-214). -/
def slowWrite (sb : SplineB K) (curs : ℕ) (bdry : Bool) (x : K) (nder : ℕ)
    (io : ℕ) : ℕ → ℕ → List K × Bool → List K × Bool
  | _, 0, st => st
  | i, n + 1, (out, fl) =>
    let r := sb.slowEval curs bdry x nder i
    slowWrite sb curs bdry x nder io (i + 1) n (out.set (i + io) r.1, fl || r.2)

/-- The loop `for (i...) out[i + io] = wrk[i]` of the value branch
(bases.h lines 217-219). -/
def fastWrite (io : ℕ) (wrk : List K) : ℕ → ℕ → List K → List K
  | _, 0, out => out
  | i, n + 1, out => fastWrite io wrk (i + 1) n (out.set (i + io) (wrk.getD i 0))

/-- The `SplineBasis::operator()` evaluation (bases.h lines 104-221).  The
output buffer is zero-filled (line 200), the cursor is set, and then either
nothing more is written (out-of-range `x`), the slow derivative branch runs
(`ders > 0`), or the fast value branch runs (any `ders <= 0`, including
antiderivative requests, which are silently evaluated as values).  The `Bool`
records whether any division by zero occurred. -/
def SplineB.eval (sb : SplineB K) (x : K) (ders : ℤ) : List K × Bool :=
  let out0 : List K := List.replicate sb.ncoef 0
  let cb := sb.setCursor x
  let curs := cb.1
  let io := curs - sb.order
  if curs < sb.order ∨ sb.knots.length < io then (out0, false)
  else if 0 < ders then
    slowWrite sb curs cb.2 x ders.toNat io 0 sb.order (out0, false)
  else
    let bf := sb.basisFuncs curs x
    (fastWrite io bf.1 0 sb.order out0, bf.2)

/-- The set of output cells written by `SplineBasis::operator()`: the
zero-fill covers `[0, ncoef)` (bases.h line 200) and both the slow and fast
branches additionally write `out[i + io]` for `i < order` (bases.h
lines 210-219); the same cells for every `ders`. -/
def SplineB.writes (sb : SplineB K) (x : K) : Finset ℕ :=
  let curs := (sb.setCursor x).1
  let io := curs - sb.order
  Finset.range sb.ncoef ∪
    (if curs < sb.order ∨ sb.knots.length < io then ∅
     else Finset.Ico io (io + sb.order))

/-! ### bs (bases.h lines 259-343) -/

/-- Configuration of a `bs` basis.  The constructor (`bases.cpp`, not part of
the sources) builds the underlying `SplineBasis` knot vector; per the spec's
construction interface it consists of each boundary knot repeated `order`
times around the sorted interior knots (captured by `BS.Valid` below). -/
structure BS (K : Type*) where
  sb : SplineB K
  boundaryKnots : K × K
  interiorKnots : List K
  intercept : Bool

/-- The `bs::n_basis()` member: `SplineBasis::n_basis() - (!intercept)`
(bases.h lines 276-278). -/
def BS.nBasis (b : BS K) : ℕ := b.sb.ncoef - (if b.intercept then 0 else 1)

/-- The `bs::n_wmem()` member (bases.h lines 266-270). -/
def BS.nWmem (b : BS K) : ℕ :=
  2 * max b.sb.ncoef b.nBasis + b.sb.nWmem

/-- The in-range part of `bs::operator()` (bases.h lines 335-341): with an
intercept the `SplineBasis` evaluation is the output; otherwise its first
entry is dropped. -/
def BS.evalIn (b : BS K) (x : K) (ders : ℤ) : List K × Bool :=
  let r := b.sb.eval x ders
  if b.intercept then r else (r.1.drop 1, r.2)

/-- The extrapolation pivot `k_pivot` (bases.h lines 292-295). -/
def BS.kPivot (b : BS K) (x : K) : K :=
  if x < b.boundaryKnots.1 then
    (3 / 4 : K) * b.boundaryKnots.1 + (1 / 4 : K) * b.sb.knots.getD b.sb.order 0
  else
    (3 / 4 : K) * b.boundaryKnots.2 +
      (1 / 4 : K) * b.sb.knots.getD (b.sb.knots.length - b.sb.order - 2) 0

/-- Accumulation of the Taylor terms of the extrapolation branch: the output
starts zero-filled and each `add_term(d, f)` adds `f` times an in-range
evaluation at the pivot (bases.h lines 298-302). -/
def extrapSum (n : ℕ) (terms : List (K × (List K × Bool))) : List K × Bool :=
  terms.foldl
    (fun acc t =>
      (List.zipWith (fun a c => a + t.1 * c) acc.1 t.2.1, acc.2 || t.2.2))
    (List.replicate n (0 : K), false)

/-- The `bs::operator()` evaluation (bases.h lines 285-342).  Outside the
boundary knots a Taylor extrapolation around `k_pivot` is used for
`ders = 0, 1, 2, 3`; any other order throws `ders not implemented`
(line 329).  The recursive calls `bs::operator()(..., k_pivot, d)` land in
the in-range branch because `k_pivot` lies between the boundary knots for
every valid configuration (theorem `BS.kPivot_mem` below), so they are
embedded as `evalIn` at the pivot. -/
def BS.eval (b : BS K) (x : K) (ders : ℤ) : Except String (List K × Bool) :=
  if x < b.boundaryKnots.1 ∨ b.boundaryKnots.2 < x then
    let kp := b.kPivot x
    let d := x - kp
    if ders = 0 then .ok (extrapSum b.nBasis
        [(1, b.evalIn kp 0), (d, b.evalIn kp 1),
         (d * d / 2, b.evalIn kp 2), (d * d * d / 6, b.evalIn kp 3)])
    else if ders = 1 then .ok (extrapSum b.nBasis
        [(1, b.evalIn kp 1), (d, b.evalIn kp 2), (d * d / 2, b.evalIn kp 3)])
    else if ders = 2 then
      .ok (extrapSum b.nBasis [(1, b.evalIn kp 2), (d, b.evalIn kp 3)])
    else if ders = 3 then .ok (extrapSum b.nBasis [(1, b.evalIn kp 3)])
    else .error ("ders not implemented")
  else .ok (b.evalIn x ders)

/-- Output cells written by `bs::operator()`: the extrapolation branch
zero-fills exactly `[0, n_basis())` (bases.h line 304) and accumulates into
the same cells; the in-range branch writes the `SplineBasis` cells when
there is an intercept and `[0, n_basis())` otherwise (bases.h lines 335-341).
For an unimplemented extrapolation order the call throws (after the
zero-fill) and produces no result. -/
def BS.writes (b : BS K) (x : K) (ders : ℤ) : Except String (Finset ℕ) :=
  if x < b.boundaryKnots.1 ∨ b.boundaryKnots.2 < x then
    if ders = 0 ∨ ders = 1 ∨ ders = 2 ∨ ders = 3 then .ok (Finset.range b.nBasis)
    else .error ("ders not implemented")
  else if b.intercept then .ok (b.sb.writes x)
  else .ok (Finset.range b.nBasis)

/-- Construction invariants of `bs` established by the constructor
(`bases.cpp`, not part of the sources): the knot vector repeats each boundary
knot `order` times around the sorted interior knots, which lie strictly
between the boundary knots; without an intercept at least two coefficients
are needed. -/
def BS.Valid (b : BS K) : Prop :=
  1 ≤ b.sb.order ∧
  b.sb.knots =
    List.replicate b.sb.order b.boundaryKnots.1 ++ b.interiorKnots ++
      List.replicate b.sb.order b.boundaryKnots.2 ∧
  b.boundaryKnots.1 < b.boundaryKnots.2 ∧
  (∀ k ∈ b.interiorKnots, b.boundaryKnots.1 < k ∧ k < b.boundaryKnots.2) ∧
  b.interiorKnots.Sorted (· ≤ ·) ∧
  (b.intercept = false → 2 ≤ b.sb.ncoef)

/-! ### ns (bases.h lines 345-434) -/

/-- Configuration of an `ns` basis.  The Q-matrix and the boundary
intercepts/slopes `tl0, tl1, tr0, tr1` are computed once by the constructor
(`bases.cpp` and the `q_matrix` initializer, not evaluated here); they are
carried as fields, exactly as the evaluation code consumes them.  `qMat` holds
the columns of `q_matrix` (arma stores column-major). -/
structure NS (K : Type*) where
  bspline : BS K
  intercept : Bool
  qRows : ℕ
  qMat : List (List K)
  tl0 : List K
  tl1 : List K
  tr0 : List K
  tr1 : List K

/-- The `ns::n_basis()` member: `q_matrix.n_rows - 2` (bases.h line 371). -/
def NS.nBasis (n : NS K) : ℕ := n.qRows - 2

/-- The `ns::n_wmem()` member (bases.h line 367). -/
def NS.nWmem (n : NS K) : ℕ := n.bspline.nWmem + n.qRows + n.bspline.nBasis

/-- Modelled from the spec: `lp_joint::mat_vec` (`lp-joint.h` is not part of
the sources); a plain column-major matrix-vector product
`lhs[r] = sum_c Q[r, c] * v[c]` accumulated into a zero-filled `lhs`. -/
def matVec (rows : ℕ) (cols : List (List K)) (v : ℕ → K) : List K :=
  (List.range rows).map fun r =>
    ((List.range cols.length).map fun c => (cols.getD c []).getD r 0 * v c).sum

/-- The `ns::operator()` evaluation (bases.h lines 380-426).  Outside the
boundary knots only the precomputed `tl0/tl1` (left) or `tr0/tr1` (right)
vectors are used: a linear form for `ders = 0`, the constant slope for
`ders = 1` (a copy of the whole `tl1`/`tr1` vector), and zeros otherwise.
Inside, the wrapped `bs` is evaluated and mapped through the Q-matrix,
dropping the first two rows. -/
def NS.eval (n : NS K) (x : K) (ders : ℤ) : Except String (List K × Bool) :=
  if x < n.bspline.boundaryKnots.1 then
    .ok
      (if ders = 0 then
        ((List.range n.nBasis).map fun i =>
          n.tl1.getD i 0 * (x - n.bspline.boundaryKnots.1) + n.tl0.getD i 0)
       else if ders = 1 then n.tl1
       else List.replicate n.nBasis 0, false)
  else if n.bspline.boundaryKnots.2 < x then
    .ok
      (if ders = 0 then
        ((List.range n.nBasis).map fun i =>
          n.tr1.getD i 0 * (x - n.bspline.boundaryKnots.2) + n.tr0.getD i 0)
       else if ders = 1 then n.tr1
       else List.replicate n.nBasis 0, false)
  else
    match n.bspline.eval x ders with
    | .error e => .error e
    | .ok bv =>
      let off := if n.intercept then 0 else 1
      let lhs := matVec n.qRows n.qMat fun c => bv.1.getD (c + off) 0
      .ok (lhs.drop 2, bv.2)

/-- Output cells written by `ns::operator()`: `[0, n_basis())` in the
`ders = 0` and higher-order branches, the length of the copied slope vector
for `ders = 1` (bases.h lines 392 and 407), and the `q_matrix.n_rows - 2`
copied cells inside the boundary. -/
def NS.writes (n : NS K) (x : K) (ders : ℤ) : Except String (Finset ℕ) :=
  if x < n.bspline.boundaryKnots.1 then
    .ok (if ders = 1 then Finset.range n.tl1.length else Finset.range n.nBasis)
  else if n.bspline.boundaryKnots.2 < x then
    .ok (if ders = 1 then Finset.range n.tr1.length else Finset.range n.nBasis)
  else
    match n.bspline.eval x ders with
    | .error e => .error e
    | .ok _ => .ok (Finset.range (n.qRows - 2))

/-- Construction invariants of `ns`: a valid wrapped `bs` and boundary
vectors of length `n_basis()`, with at least two Q-matrix rows. -/
def NS.Valid (n : NS K) : Prop :=
  n.bspline.Valid ∧ 2 ≤ n.qRows ∧
  n.tl0.length = n.nBasis ∧ n.tl1.length = n.nBasis ∧
  n.tr0.length = n.nBasis ∧ n.tr1.length = n.nBasis

/-! ### iSpline (bases.h lines 436-503) -/

/-- Configuration of an `iSpline` basis (intercept flag, order and the
wrapped `bs`). -/
structure ISpl (K : Type*) where
  intercept : Bool
  order : ℕ
  bspline : BS K

/-- The `iSpline::n_basis()` member: `bspline.n_basis() - (!intercept)`
(bases.h lines 451-453). -/
def ISpl.nBasis (s : ISpl K) : ℕ :=
  s.bspline.nBasis - (if s.intercept then 0 else 1)

/-- The `iSpline::n_wmem()` member (bases.h lines 447-449). -/
def ISpl.nWmem (s : ISpl K) : ℕ := s.bspline.nWmem + s.bspline.nBasis

/-- The `std::lower_bound(knots.begin(), knots.end() - 1, x)` call of
`iSpline::operator()` (bases.h lines 475-479): the first index among all but
the last knot whose knot is not less than `x`, or the number of searched
knots when there is none. -/
def lowerBd (knots : List K) (x : K) : ℕ :=
  let l := knots.take (knots.length - 1)
  (l.findIdx? fun k => decide (x ≤ k)).getD l.length

/-- The cumulative-sum-from-the-right transform of `iSpline::operator()`
(bases.h lines 481-485), processing `j = n_b - 1` down to `0`:
`if (j > js) b[j] = 0; else if (j != n_b - 1) b[j] += b[j+1];`. -/
def iTransGo (js nb : ℕ) : ℕ → List K → List K
  | 0, b => b
  | j + 1, b =>
    iTransGo js nb j
      (if js < j then b.set j 0
       else if j ≠ nb - 1 then b.set j (b.getD j 0 + b.getD (j + 1) 0) else b)

/-- The clamp-to-one loop for `ders == 0` (bases.h lines 486-489), processing
`j = n_b - 2` down to `0`: `if (j + order + 1 < js) b[j] = 1;`. -/
def iOnesGo (js ord : ℕ) : ℕ → List K → List K
  | 0, b => b
  | j + 1, b => iOnesGo js ord j (if j + ord + 1 < js then b.set j 1 else b)

/-- The `iSpline::operator()` evaluation (bases.h lines 460-502).  The
clamping thresholds are the literals `0` and `1` (`if (x < 0)`,
`else if (x <= 1)`), not the boundary knots of the wrapped `bs`. -/
def ISpl.eval (s : ISpl K) (x : K) (ders : ℤ) : Except String (List K × Bool) :=
  if x < 0 then .ok (List.replicate s.nBasis 0, false)
  else if x ≤ 1 then
    match s.bspline.eval x ders with
    | .error e => .error e
    | .ok bv =>
      let nb := s.bspline.nBasis
      let js :=
        if 0 < s.bspline.interiorKnots.length then lowerBd s.bspline.sb.knots x
        else s.order + 1
      let b1 := iTransGo js nb nb bv.1
      let b2 := if ders = 0 then iOnesGo js s.order (nb - 1) b1 else b1
      .ok ((if s.intercept then b2 else b2.drop 1), bv.2)
  else if 0 < ders then .ok (List.replicate s.nBasis 0, false)
  else .ok (List.replicate s.nBasis 1, false)

/-- Output cells written by `iSpline::operator()`: always `[0, n_basis())`
(the fills in the clamped branches and the copies in the main branch),
except that a thrown inner `bs` evaluation produces no result. -/
def ISpl.writes (s : ISpl K) (x : K) (ders : ℤ) : Except String (Finset ℕ) :=
  if x < 0 then .ok (Finset.range s.nBasis)
  else if x ≤ 1 then
    match s.bspline.eval x ders with
    | .error e => .error e
    | .ok _ => .ok (Finset.range s.nBasis)
  else .ok (Finset.range s.nBasis)

/-- Construction invariants of `iSpline`. -/
def ISpl.Valid (s : ISpl K) : Prop :=
  s.bspline.Valid ∧ (s.intercept = false → 1 ≤ s.bspline.nBasis)

/-! ### mSpline (bases.h lines 505-545) -/

/-- Configuration of an `mSpline` basis. -/
structure MSpl (K : Type*) where
  bspline : BS K
  intercept : Bool

/-- The `mSpline::n_basis()` member (bases.h lines 519-521). -/
def MSpl.nBasis (s : MSpl K) : ℕ :=
  s.bspline.nBasis - (if s.intercept then 0 else 1)

/-- The `mSpline::n_wmem()` member (bases.h lines 515-517). -/
def MSpl.nWmem (s : MSpl K) : ℕ := s.bspline.nWmem + s.bspline.nBasis

/-- The per-coefficient rescaling factor of `mSpline::operator()`
(bases.h lines 535-538): `order / (knots[j + order] - knots[j])` when the
knot span is strictly positive and `0` otherwise. -/
def MSpl.scale (s : MSpl K) (j : ℕ) : K :=
  let denom :=
    s.bspline.sb.knots.getD (j + s.bspline.sb.order) 0 - s.bspline.sb.knots.getD j 0
  if 0 < denom then (s.bspline.sb.order : K) / denom else 0

/-- The `mSpline::operator()` evaluation (bases.h lines 528-544): the wrapped
`bs` evaluation with coefficient `j` rescaled by `MSpl.scale`, dropping the
first coefficient without an intercept. -/
def MSpl.eval (s : MSpl K) (x : K) (ders : ℤ) : Except String (List K × Bool) :=
  match s.bspline.eval x ders with
  | .error e => .error e
  | .ok bv =>
    let w := (List.range s.bspline.nBasis).map fun j => bv.1.getD j 0 * s.scale j
    .ok ((if s.intercept then w else w.drop 1), bv.2)

/-- Output cells written by `mSpline::operator()`. -/
def MSpl.writes (s : MSpl K) (x : K) (ders : ℤ) : Except String (Finset ℕ) :=
  match s.bspline.eval x ders with
  | .error e => .error e
  | .ok _ => .ok (Finset.range s.nBasis)

/-- Construction invariants of `mSpline`. -/
def MSpl.Valid (s : MSpl K) : Prop :=
  s.bspline.Valid ∧ (s.intercept = false → 1 ≤ s.bspline.nBasis)

/-! ### orth_poly (bases.h lines 547-701) -/

/-- Configuration of an `orth_poly` basis: the recurrence coefficients
`alpha`, `norm2` and its precomputed square roots, the `raw` and `intercept`
flags, the basis count `n_basis_v`, and the raw-to-orthogonal change-of-basis
coefficients `orth_map`, all fixed at construction (bases.h lines 548-559). -/
structure OrthP (K : Type*) where
  alpha : List K
  norm2 : List K
  sqrtNorm2 : List K
  raw : Bool
  intercept : Bool
  nbv : ℕ
  orthMap : List K

/-- The `orth_poly::n_basis()` member (bases.h lines 698-700). -/
def OrthP.nBasis (p : OrthP K) : ℕ := p.nbv

/-- The `orth_poly::n_wmem()` member (bases.h lines 639-641). -/
def OrthP.nWmem (p : OrthP K) : ℕ :=
  if p.intercept then p.nbv else p.nbv + 1

/-- The successive-multiplication loops of the `ders == 0` branch of
`eval_raw` (bases.h lines 564-574): each cell is the previous running value
times `x`; with an intercept the run starts at `1`, without it at `x`. -/
def rawPow (x : K) : K → ℕ → List K
  | _, 0 => []
  | v, n + 1 => v :: rawPow x (v * x) n

/-- The initialization loop of the antiderivative branch of `eval_raw`
(bases.h lines 578-584): `for (i = 2; i <= uders; ++i)` multiplies
`val_upper` by `x / i` and `val_lower` by `lower_limit / i`. -/
def radIter (x ll : K) : ℕ → ℕ → K × K → K × K
  | _, 0, st => st
  | i, n + 1, (vu, vl) => radIter x ll (i + 1) n (vu * (x / i), vl * (ll / i))

/-- The main loop of the antiderivative branch of `eval_raw` (bases.h
lines 591-599), producing one output cell `val_upper - val_lower` per basis
function and updating the two running values. -/
def radLoop (x ll : K) (uders : ℕ) (inter : Bool) : ℕ → ℕ → K × K → List K
  | _, 0, _ => []
  | c, m + 1, (vu, vl) =>
    let ic := if inter then 1 else 0
    let d : K := ((c + uders + 1 + ic : ℕ) : K)
    let vu1 := vu * (x / d)
    let vl1 := vl * (ll / d)
    let st :=
      if uders < c + 1 - ic then
        (vu1 * ((c + 1 + ic : ℕ) : K), vl1 * ((c + 1 + ic : ℕ) : K))
      else (vu1, vl1)
    (vu - vl) :: radLoop x ll uders inter (c + 1) m st

/-- The `eval_raw` member (bases.h lines 562-624).  The returned list is the
whole buffer the code writes, cell for cell; its length is the number of
cells written.  For `ders > 0` the code zero-fills `ders` cells (`ders - 1`
without an intercept) and then the loop overwrites cells `[0, n_basis_v)`
(with an intercept only cells `[ders, n_basis_v)`), so the buffer length is
the maximum of the two; the inner `mult` loop computes the descending
factorial (with an intercept `c * (c-1) * ... * (c-ders+1)`; without one
`(c+1) * c * ... * (c-ders+2)`, where for `c + 1 < ders` the loop condition
`--cc > c - ders + 1` wraps around in unsigned arithmetic and the loop body
never runs, leaving `mult = c + 1`). -/
def OrthP.evalRaw (p : OrthP K) (ll : K) (x : K) (inter : Bool) (ders : ℤ) :
    List K :=
  if ders = 0 then
    if inter then rawPow x 1 p.nbv else rawPow x x p.nbv
  else if ders < 0 then
    let uders := (-ders).toNat
    let st0 := radIter x ll 2 (uders - 1) (x, ll)
    let st1 :=
      if inter then st0
      else (st0.1 * (x / ((uders + 1 : ℕ) : K)), st0.2 * (x / ((uders + 1 : ℕ) : K)))
    radLoop x ll uders inter 0 p.nbv st1
  else
    let d := ders.toNat
    if inter then
      (List.range (max d p.nbv)).map fun c =>
        if c < d ∨ p.nbv ≤ c then 0 else ((c.descFactorial d : ℕ) : K) * x ^ (c - d)
    else
      (List.range (max (d - 1) p.nbv)).map fun c =>
        if p.nbv ≤ c then 0
        else (((if d ≤ c + 1 then (c + 1).descFactorial d else c + 1) : ℕ) : K) * x ^ c

/-- The three-term-recurrence loop of the non-raw `ders == 0` branch of
`orth_poly::operator()` (bases.h lines 660-667), iterating
`c = 1, ..., alpha.n_elem - 1` with the `old` running value. -/
def opValRec (p : OrthP K) (x : K) (ic : ℕ) : ℕ → ℕ → List K → K → List K
  | _, 0, out, _ => out
  | c, m + 1, out, old =>
    let prev := out.getD (c - 1 + ic) 0
    let newv :=
      (x - p.alpha.getD c 0) * prev - p.norm2.getD (c + 1) 0 / p.norm2.getD c 0 * old
    opValRec p x ic (c + 1) m (out.set (c + ic) newv) prev

/-- The normalization loop of the non-raw `ders == 0` branch (bases.h
lines 670-671): `out[j - 1 + intercept] /= sqrt_norm2.at(j + 1)` for
`j = 1, ..., alpha.n_elem`. -/
def opDivRec (p : OrthP K) (ic : ℕ) : ℕ → ℕ → List K → List K
  | _, 0, out => out
  | j, m + 1, out =>
    opDivRec p ic (j + 1) m
      (out.set (j - 1 + ic) (out.getD (j - 1 + ic) 0 / p.sqrtNorm2.getD (j + 1) 0))

/-- Inner loop of the change-of-basis application in the non-raw `ders != 0`
branch (bases.h lines 687-689): `out[i + intercept] += wk_mem[j+1] * *g++`
with the `g` read position threaded sequentially. -/
def opMatInner (p : OrthP K) (wkj : K) (ic : ℕ) : ℕ → ℕ → ℕ → List K → List K
  | _, 0, _, out => out
  | i, m + 1, gpos, out =>
    opMatInner p wkj ic (i + 1) m (gpos + 1)
      (out.set (i + ic) (out.getD (i + ic) 0 + wkj * p.orthMap.getD gpos 0))

/-- Outer loop of the change-of-basis application (bases.h lines 687-689):
`for (j...) for (i = j...)`, consuming `orth_map` left to right. -/
def opMatOuter (p : OrthP K) (wk : List K) (ic na : ℕ) :
    ℕ → ℕ → ℕ → List K → List K
  | _, 0, _, out => out
  | j, m + 1, gpos, out =>
    opMatOuter p wk ic na (j + 1) m (gpos + (na - j))
      (opMatInner p (wk.getD (j + 1) 0) ic j (na - j) gpos out)

/-- The `orth_poly::operator()` evaluation (bases.h lines 647-690), taking
the stored `lower_limit` as an explicit argument.  Raw mode delegates to
`eval_raw`; the non-raw value branch runs the three-term recurrence and
normalizes; the non-raw derivative/antiderivative branch evaluates the raw
polynomial with an intercept into scratch and multiplies by `orth_map`
(the intercept handling at line 682 starts the read position at
`!intercept`). -/
def OrthP.eval (p : OrthP K) (ll : K) (x : K) (ders : ℤ) : List K :=
  if p.raw then p.evalRaw ll x p.intercept ders
  else if ders = 0 then
    let ic := if p.intercept then 1 else 0
    let na := p.alpha.length
    let out0 := ((List.replicate p.nbv (0 : K)).set 0 1)
    let out1 :=
      if 0 < na then
        opValRec p x ic 1 (na - 1) (out0.set ic (x - p.alpha.getD 0 0)) 1
      else out0
    opDivRec p ic 1 na out1
  else
    let wk := p.evalRaw ll x true ders
    let ic := if p.intercept then 1 else 0
    let gi0 := if p.intercept then 0 else 1
    let na := p.alpha.length
    let out0 := (List.range p.nbv).map fun i => wk.getD 0 0 * p.orthMap.getD (gi0 + i) 0
    opMatOuter p wk ic na 0 na (gi0 + p.nbv) out0

/-- Output cells written by `orth_poly::operator()`: in raw mode the cells of
the `eval_raw` buffer (`lower_limit` never affects which cells are written);
in non-raw mode the zero-fill plus in-range updates cover exactly
`[0, n_basis_v)`. -/
def OrthP.writes (p : OrthP K) (x : K) (ders : ℤ) : Finset ℕ :=
  if p.raw then Finset.range ((p.evalRaw 0 x p.intercept ders).length)
  else Finset.range p.nbv

/-- Construction invariants of `orth_poly` (constructors in `bases.cpp`, not
part of the sources): at least one basis function, and in non-raw mode
`n_basis_v = alpha.n_elem + intercept` with `norm2` holding two more entries
than `alpha` (the recurrence reads `norm2[c + 1]` and `sqrt_norm2[j + 1]`). -/
def OrthP.Valid (p : OrthP K) : Prop :=
  1 ≤ p.nbv ∧
  (p.raw = false →
    p.nbv = p.alpha.length + (if p.intercept then 1 else 0) ∧
    p.norm2.length = p.alpha.length + 2 ∧
    p.sqrtNorm2.length = p.norm2.length)

/-! ### The five concrete families behind the `basisMixin` interface -/

/-- The closed variant of the five concrete basis families of the spec
(B-spline, natural spline, I-spline, M-spline, orthogonal/raw polynomial). -/
inductive Family (K : Type*) where
  | bsF : BS K → Family K
  | nsF : NS K → Family K
  | isF : ISpl K → Family K
  | msF : MSpl K → Family K
  | opF : OrthP K → Family K

/-- Dispatch of `n_basis()` over the five families. -/
def Family.nBasis : Family K → ℕ
  | .bsF b => b.nBasis
  | .nsF n => n.nBasis
  | .isF s => s.nBasis
  | .msF s => s.nBasis
  | .opF p => p.nBasis

/-- Dispatch of `n_wmem()` over the five families. -/
def Family.nWmem : Family K → ℕ
  | .bsF b => b.nWmem
  | .nsF n => n.nWmem
  | .isF s => s.nWmem
  | .msF s => s.nWmem
  | .opF p => p.nWmem

/-- Dispatch of `operator()` over the five families.  Every family stores the
`basisMixin::lower_limit` field (bases.h lines 74-80) but only `orth_poly`
reads it; the orthogonal-polynomial evaluation never throws and never divides
by a knot-span difference. -/
def Family.eval (f : Family K) (ll : K) (x : K) (ders : ℤ) :
    Except String (List K × Bool) :=
  match f with
  | .bsF b => b.eval x ders
  | .nsF n => n.eval x ders
  | .isF s => s.eval x ders
  | .msF s => s.eval x ders
  | .opF p => .ok (p.eval ll x ders, false)

/-- Dispatch of the written-cells accounting over the five families. -/
def Family.writes (f : Family K) (x : K) (ders : ℤ) : Except String (Finset ℕ) :=
  match f with
  | .bsF b => b.writes x ders
  | .nsF n => n.writes x ders
  | .isF s => s.writes x ders
  | .msF s => s.writes x ders
  | .opF p => .ok (p.writes x ders)

/-- Dispatch of the construction invariants over the five families. -/
def Family.Valid : Family K → Prop
  | .bsF b => b.Valid
  | .nsF n => n.Valid
  | .isF s => s.Valid
  | .msF s => s.Valid
  | .opF p => p.Valid

/-- A basis object as handed out by the `basisMixin` interface: a family
configuration together with the mutable `lower_limit` field (bases.h
lines 74-80). -/
structure BasisObj (K : Type*) where
  fam : Family K
  lowerLimit : K

/-- The `basisMixin::set_lower_limit` member (bases.h lines 75-77): it only
stores the new lower integration limit. -/
def BasisObj.setLowerLimit (o : BasisObj K) (v : K) : BasisObj K :=
  { o with lowerLimit := v }

/-- Object-level evaluation: dispatch with the stored lower limit. -/
def BasisObj.eval (o : BasisObj K) (x : K) (ders : ℤ) :
    Except String (List K × Bool) :=
  o.fam.eval o.lowerLimit x ders

/-- Object-level `n_basis()`. -/
def BasisObj.nBasis (o : BasisObj K) : ℕ := o.fam.nBasis

/-- Object-level `n_wmem()`. -/
def BasisObj.nWmem (o : BasisObj K) : ℕ := o.fam.nWmem

/-! ### The reference quadrature rule (test-survival-term.cpp lines 18-20) -/

/-- The 100 nodes `ns` of the reference Legendre quadrature rule, exactly as
listed in test-survival-term.cpp line 19 (each decimal literal is exact). -/
def nodesQ : List ℚ :=
  [   0.999856863386721, 0.999245975319798, 0.998147567366563, 0.996562468518722, 0.994492197621496, 0.991938770353028,
   0.988904679243459, 0.985392887881853, 0.981406827127908, 0.976950391462746, 0.972027935068128, 0.96664426752154,
   0.960804649072667, 0.954514785491265, 0.947780822485363, 0.940609339692509, 0.933007344248582, 0.924982263939796,
   0.9165419399442, 0.907694619169588, 0.898448946195157, 0.888813954824748, 0.878799059259854, 0.86841404490101,
   0.857669058786528, 0.846574599677901, 0.835141507801571, 0.823380954257065, 0.811304430101854, 0.798923735123589,
   0.786250966310691, 0.773298506032547, 0.760079009940882, 0.746605394604095, 0.732890824886679, 0.718948701086016,
   0.704792645839151, 0.690436490812315, 0.675894263186211, 0.661180171950264, 0.646308594019236, 0.631294060185752,
   0.616151240922487, 0.600894932047868, 0.585540040269302, 0.570101568618057, 0.55459460179003, 0.539034291406718,
   0.523435841210796, 0.507814492210772, 0.492185507789228, 0.476564158789204, 0.460965708593282, 0.445405398209969,
   0.429898431381943, 0.414459959730698, 0.399105067952132, 0.383848759077513, 0.368705939814248, 0.353691405980764,
   0.338819828049735, 0.324105736813789, 0.309563509187685, 0.295207354160849, 0.281051298913984, 0.267109175113321,
   0.253394605395905, 0.239920990059119, 0.226701493967453, 0.213749033689309, 0.201076264876411, 0.188695569898146,
   0.176619045742935, 0.16485849219843, 0.153425400322099, 0.142330941213472, 0.13158595509899, 0.121200940740146,
   0.111186045175252, 0.101551053804843, 0.0923053808304122, 0.0834580600557998, 0.0750177360602048, 0.0669926557514177,
   0.059390660307491, 0.0522191775146367, 0.045485214508735, 0.0391953509273331, 0.0333557324784605, 0.0279720649318723,
   0.0230496085372542, 0.0185931728720925, 0.0146071121181469, 0.0110953207565408, 0.00806122964697142, 0.00550780237850412,
   0.00343753148127823, 0.0018524326334376, 0.000754024680202081, 0.000143136613279637]

/-- The 100 weights `ws` of the reference quadrature rule
(test-survival-term.cpp line 20). -/
def weightsQ : List ℚ :=
  [   0.00036731724525283, 0.00085469632675904, 0.00134196268577676, 0.0018279806006632, 0.00231222503171107, 0.00279421400193276,
   0.00327347422542265, 0.0037495366277323, 0.00422193573483449, 0.00469020982684724, 0.00515390128743443, 0.00561255701159295,
   0.00606572883148976, 0.00651297394648573, 0.00695385535185937, 0.00738794226372056, 0.00781481053877309, 0.00823404308807255,
   0.00864523028416182, 0.00904797036106383, 0.0094418698066875, 0.00982654374721765, 0.0102016163231046, 0.010566721056264,
   0.0109215012081237, 0.0112656101281682, 0.0115987115926271, 0.0119204801329841, 0.0122306013539787, 0.0125287722407897,
   0.0128147014551038, 0.0130881096197728, 0.0133487295917854, 0.0135963067232884, 0.0138305991103962, 0.0140513778295507,
   0.0142584271611973, 0.0144515448005625, 0.0146305420553188, 0.0147952440299562, 0.0149454897966664, 0.0150811325525845,
   0.0152020397632271, 0.0153080932919901, 0.0153991895155767, 0.0154752394252457, 0.0155361687137837, 0.015581917848105,
   0.0156124421274248, 0.0156277117269315, 0.0156277117269314, 0.0156124421274247, 0.0155819178481047, 0.0155361687137839,
   0.0154752394252455, 0.0153991895155768, 0.0153080932919904, 0.0152020397632275, 0.0150811325525847, 0.0149454897966667,
   0.0147952440299567, 0.014630542055319, 0.0144515448005628, 0.0142584271611974, 0.0140513778295502, 0.0138305991103963,
   0.013596306723289, 0.0133487295917851, 0.0130881096197728, 0.0128147014551039, 0.0125287722407895, 0.0122306013539787,
   0.0119204801329843, 0.011598711592627, 0.0112656101281685, 0.0109215012081232, 0.0105667210562641, 0.0102016163231051,
   0.00982654374721767, 0.0094418698066878, 0.00904797036106456, 0.00864523028416149, 0.00823404308807257, 0.00781481053877307,
   0.00738794226372049, 0.00695385535185915, 0.00651297394648541, 0.00606572883148956, 0.00561255701159312, 0.00515390128743413,
   0.00469020982684725, 0.0042219357348343, 0.00374953662773162, 0.00327347422542264, 0.00279421400193271, 0.00231222503171171,
   0.00182798060066296, 0.00134196268577661, 0.000854696326758952, 0.000367317245252787]

/-! ### The expected-cumulative-hazard integrator, modelled from the spec -/

/-- Dot product of two coefficient buffers. -/
def dotL {K : Type*} [LinearOrderedField K] (a b : List K) : K :=
  (List.zipWith (fun u v => u * v) a b).sum

/-- Modelled from the spec: the parameters consumed by
`survival::expected_cum_hazzard` (`survival-term.h` is not part of the
sources): fixed covariates `Z`, fixed-effect coefficients `delta`,
baseline-basis coefficients `omega`, association coefficients `alpha`, the
shared latent mean `zeta`, the shared covariance `Psi` (rows), the baseline
time basis `g`, and the per-marker time bases. -/
structure CumHazP (K : Type*) where
  Z : List K
  delta : List K
  omega : List K
  alpha : List K
  zeta : List K
  Psi : List (List K)
  gBasis : K → List K
  markers : List (K → List K)

/-- Modelled from the spec: the stacked association vector `M(x) * (alpha, 1)`
of section 4.3 — for each marker its basis evaluation scaled by that marker's
association coefficient, plus a fixed unit entry for the shared frailty
component. -/
def CumHazP.malpha {K : Type*} [LinearOrderedField K] (P : CumHazP K) (x : K) :
    List K :=
  (List.zipWith (fun m a => (m x).map fun v => a * v) P.markers P.alpha).flatten ++ [1]

/-- Modelled from the spec: the log-hazard linear predictor
`delta . Z + g(x) . omega + Malpha(x) . zeta` (without the variational
covariance correction). -/
def CumHazP.logHaz {K : Type*} [LinearOrderedField K] (P : CumHazP K) (x : K) :
    K :=
  dotL P.delta P.Z + dotL (P.gBasis x) P.omega + dotL (P.malpha x) P.zeta

/-- Modelled from the spec: the full hazard exponent, the linear predictor
plus the quadratic correction `Malpha(x) . Psi . Malpha(x) / 2`, evaluated as
a bilinear form. -/
def CumHazP.eta {K : Type*} [LinearOrderedField K] (P : CumHazP K) (x : K) : K :=
  P.logHaz x + dotL (P.malpha x) (P.Psi.map fun row => dotL row (P.malpha x)) / 2

/-- Modelled from the spec: the quadrature approximation of the expected
cumulative hazard over `[lb, ub]` — every node is rescaled as
`node * (ub - lb) + lb`, its weight by `ub - lb`, and the exponentiated
predictor is accumulated (section 4.3 of the spec; the rule is passed as the
zipped node/weight pairs).  The exponential is a parameter so that the same
formula runs over any numeric type; the theorems instantiate it with
`Real.exp`. -/
def cumHazQuad {K : Type*} [LinearOrderedField K] (expF : K → K) (P : CumHazP K)
    (rule : List (ℚ × ℚ)) (lb ub : K) : K :=
  (rule.map fun p =>
    (ub - lb) * (p.2 : K) * expF (P.eta (lb + (p.1 : K) * (ub - lb)))).sum

/-- The degree-2 no-intercept raw polynomial `g` of the reference scenario
(test-survival-term.cpp line 106), via the `orth_poly` embedding. -/
def gRefOP (K : Type*) [LinearOrderedField K] : OrthP K :=
  ⟨[], [], [], true, false, 2, []⟩

/-- The raw intercepted polynomials of degrees 1, 2, 1 used as the marker
bases of the reference scenario (test-survival-term.cpp lines 110-112). -/
def markerOP (K : Type*) [LinearOrderedField K] (deg : ℕ) : OrthP K :=
  ⟨[], [], [], true, true, deg + 1, []⟩

/-- The reference 3-marker configuration of
`test-survival-term.cpp` lines 85-116: `Z`, `delta`, `omega`, `alpha`,
`zeta`, the 8 x 8 `Psi` (column-major in the source; symmetric, stored here
as rows), the baseline basis `orth_poly(2, false)` and marker bases
`orth_poly(1, true)`, `orth_poly(2, true)`, `orth_poly(1, true)` evaluated at
derivative order 0 (the `ders` list `{{0}, {0}, {0}}`). -/
def refP (K : Type*) [LinearOrderedField K] : CumHazP K where
  Z := [1, -0.5, 0.33]
  delta := [0.1, 0.2, -0.3]
  omega := [0.2, -0.33]
  alpha := [0.1, 0.4, -0.2]
  zeta := [-0.1, -0.186, -0.049, 0.015, -0.056, 0.114, -0.126, 0.7]
  Psi :=
    [[0.294, 0.109, -0.132, 0.049, -0.053, 0.037, -0.005, -0.009],
     [0.109, 0.588, -0.158, -0.017, -0.279, -0.131, 0.057, 0.042],
     [-0.132, -0.158, 0.461, 0.132, 0.185, -0.01, 0.096, -0.01],
     [0.049, -0.017, 0.132, 0.333, 0.047, 0.038, -0.02, -0.119],
     [-0.053, -0.279, 0.185, 0.047, 0.487, 0.067, -0.111, -0.057],
     [0.037, -0.131, -0.01, 0.038, 0.067, 0.296, -0.029, -0.058],
     [-0.005, 0.057, 0.096, -0.02, -0.111, -0.029, 0.408, 0.035],
     [-0.009, 0.042, -0.01, -0.119, -0.057, -0.058, 0.035, 0.237]]
  gBasis := fun x => (gRefOP K).evalRaw 0 x false 0
  markers :=
    [fun x => (markerOP K 1).evalRaw 0 x true 0,
     fun x => (markerOP K 2).evalRaw 0 x true 0,
     fun x => (markerOP K 1).evalRaw 0 x true 0]

/-- Number of parameters the gradient-recording run records adjoints for:
the fixed-effect, baseline, association and latent-mean coefficients plus
every entry of `Psi` (test-survival-term.cpp lines 100-104 and 153-162). -/
def CumHazP.nParams (P : CumHazP ℚ) : ℕ :=
  P.delta.length + P.omega.length + P.alpha.length + P.zeta.length +
    (P.Psi.map List.length).sum

/-- The reference gradient over `[0, 2]` (`gr1`, test-survival-term.cpp
line 97), exact decimal literals in tape order: `delta`, `omega`, `alpha`,
`zeta`, `Psi`. -/
def gr1Q : List ℚ :=
  [   3.66100103883071, -1.83050051941535, 1.20813034296761, 3.42918046430273,
   4.4106573267205, -1.6246994498572, 3.16498025440435, -0.687486072574645,
   0.366100103838971, 0.342918046455012, 1.46440041545206, 1.371672186477,
   1.76426293173328, -0.732200208058255, -0.685836092990732, 3.66100103939786,
   0.0183050050597476, 0.0171459024689582, 0.0732200207545565, 0.068583609268588,
   0.0882131467175713, -0.0366100092407855, -0.0342918151909225, 0.183050051180727,
   0.0171459024689582, 0.0220532865467495, 0.0685836090128747, 0.0882131460840674,
   0.129601047313787, -0.034291804711143, -0.0441065736611287, 0.17145902296696,
   0.0732200207545565, 0.0685836090128747, 0.292880083117788, 0.274334437573024,
   0.35285258611587, -0.146440042696389, -0.137167218198237, 0.732200208441336,
   0.068583609268588, 0.0882131460840674, 0.274334437573024, 0.352852586225271,
   0.518404189825079, -0.137167217730308, -0.176426293334296, 0.685836092756295,
   0.0882131467175713, 0.129601047313784, 0.35285258613863, 0.518404189825079,
   0.819070183872609, -0.176426292755572, -0.25920209489517, 0.882131465487062,
   -0.0366100092407855, -0.034291804711143, -0.146440042696389, -0.137167217730308,
   -0.176426292755572, 0.0732200207972134, 0.0685836092897979, -0.366100104167798,
   -0.0342918151909225, -0.0441065736611012, -0.137167218198237, -0.176426293334296,
   -0.259202094626022, 0.0685836084048065, 0.0882131465370985, -0.342918047199904,
   0.183050051180727, 0.17145902296696, 0.732200208441336, 0.685836092756295,
   0.882131465487062, -0.366100104167798, -0.342918047933183, 1.83050051953017]

/-- The reference gradient over `[1, 3]` (`gr2`, test-survival-term.cpp
line 98). -/
def gr2Q : List ℚ :=
  [   4.19535676741652, -2.09767838370826, 1.38446773339962, 9.08862977590842,
   21.2931572851835, -7.31938925798106, 31.5115790008941, -3.93046899110043,
   0.419535676520029, 0.908862977519579, 1.67814270705777, 3.63545190818828,
   8.51726291308962, -0.839071353751239, -1.8177259550839, 4.19535676754135,
   0.0209767839346527, 0.0454431488565312, 0.0839071352485557, 0.181772595700282,
   0.425863145996658, -0.0419535673592843, -0.0908863164064654, 0.209767833938893,
   0.0454431488565312, 0.106465786465339, 0.18177259551448, 0.425863144529527,
   1.05488916587426, -0.0908862973834766, -0.212931573482166, 0.454431490473678,
   0.0839071352505494, 0.18177259546119, 0.335628541527436, 0.727090381980296,
   1.70345258301744, -0.167814276925219, -0.363545190903175, 0.839071354593133,
   0.181772594652741, 0.425863144529527, 0.727090382369155, 1.70345258262788,
   4.21955666360319, -0.363545192501694, -0.85172629128636, 1.81772595483077,
   0.425863146801342, 1.0548891658752, 1.70345258325081, 4.21955666251104,
   10.8606650093518, -0.851726291359716, -2.10977833201371, 4.25863145608917,
   -0.0419535675868855, -0.0908862973834766, -0.167814266633001, -0.363545192487844,
   -0.851726291607169, 0.083907135469042, 0.181772596328033, -0.419535676547273,
   -0.0908863044560012, -0.212931572581648, -0.363545190900434, -0.851726288706805,
   -2.10977833201132, 0.181772596327979, 0.425863145852749, -0.908862977753331,
   0.209767834845172, 0.454431489251547, 0.839071354593133, 1.8177259552599,
   4.2586314580333, -0.419535676547273, -0.908862977512679, 2.09767838381014]

/-! ### Certified rational bounds for the exponential -/

/-- Truncated Taylor series of the exponential over the rationals:
`expTq q n = sum_{i < n} q^i / i!`. -/
def expTq : ℚ → ℕ → ℚ
  | _, 0 => 0
  | q, n + 1 => expTq q n + q ^ n / (Nat.factorial n : ℚ)

/-- The Taylor remainder bound of `Real.exp_bound`:
`errT q n = q^n * (n + 1) / (n! * n)`. -/
def errT (q : ℚ) (n : ℕ) : ℚ :=
  q ^ n * (n + 1) / ((Nat.factorial n : ℚ) * n)

/-- Round a rational down to `p` decimal digits. -/
def rdDown (p : ℕ) (q : ℚ) : ℚ := (⌊q * 10 ^ p⌋ : ℤ) / 10 ^ p

/-- Round a rational up to `p` decimal digits. -/
def rdUp (p : ℕ) (q : ℚ) : ℚ := (⌈q * 10 ^ p⌉ : ℤ) / 10 ^ p

/-- A rational lower bound for `Real.exp 1`. -/
def eLo : ℚ := expTq 1 15

/-- A rational upper bound for `Real.exp 1`. -/
def eHi : ℚ := expTq 1 15 + errT 1 15

/-- A rational lower bound for `Real.exp q` (valid for `0 ≤ q`): split
`q = ⌊q⌋ + r` and bound both factors from below. -/
def expLo (q : ℚ) : ℚ := eLo ^ (⌊q⌋.toNat) * expTq (q - ⌊q⌋) 10

/-- A rational upper bound for `Real.exp q` (valid for `0 ≤ q`). -/
def expHi (q : ℚ) : ℚ :=
  eHi ^ (⌊q⌋.toNat) * (expTq (q - ⌊q⌋) 10 + errT (q - ⌊q⌋) 10)

/-- The certified rational lower bound for the reference quadrature sum over
`[lb, lb + c]`: every hazard exponent is evaluated exactly over `ℚ`, rounded
down to 9 digits, and its exponential bounded from below. -/
def sqLoSum (lb c : ℚ) : ℚ :=
  ((nodesQ.zip weightsQ).map fun p =>
    c * p.2 * expLo (rdDown 9 ((refP ℚ).eta (lb + p.1 * c)))).sum

/-- The certified rational upper bound for the reference quadrature sum. -/
def sqHiSum (lb c : ℚ) : ℚ :=
  ((nodesQ.zip weightsQ).map fun p =>
    c * p.2 * expHi (rdUp 9 ((refP ℚ).eta (lb + p.1 * c)))).sum

/-- Decidable side conditions of the certified bounds: nonnegative weights
and nonnegative (rounded-down) exponents at every node. -/
def sqSideCond (lb c : ℚ) : Bool :=
  (nodesQ.zip weightsQ).all fun p =>
    decide (0 ≤ p.2) && decide (0 ≤ rdDown 9 ((refP ℚ).eta (lb + p.1 * c)))

/-! ### The survival outcome aggregator, modelled from the spec -/

/-- Modelled from the spec: the per-subject contribution of
`survival::survival_dat` (`survival-term.h` is not part of the sources),
section 4.4: the event term `-(delta . Z + g(upper) . omega +
alpha . M^t zeta + zeta_last)` — which equals `-(CumHazP.logHaz upper)`
since the stacked `malpha` vector carries a trailing `1` against the last
latent-mean entry — is added only when the event indicator is set, and the
integrated cumulative hazard is always added. -/
def survContribution {K : Type*} [LinearOrderedField K] (expF : K → K)
    (P : CumHazP K) (rule : List (ℚ × ℚ)) (y : Bool) (lower upper : K) : K :=
  (if y then -(P.logHaz upper) else 0) + cumHazQuad expF P rule lower upper

/-! ### Concrete configurations for the counterexamples and witnesses -/

/-- A `SplineBasis` of order 3 on the knot vector `[0, 1, 1, 1, 2, 3]` with a
repeated knot: evaluating the first derivative at `x = 1` makes the
derivative recurrence divide by the zero knot span `knots[3] - knots[1]`. -/
def sbDeg : SplineB ℚ := ⟨3, [0, 1, 1, 1, 2, 3]⟩

/-- The default cubic B-spline on `[0, 1]` with no interior knots (the
constructor repeats each boundary knot `order` times). -/
def bsRef : BS ℚ := ⟨⟨4, [0, 0, 0, 0, 1, 1, 1, 1]⟩, (0, 1), [], true⟩

/-- An order-1 intercepted I-spline whose boundary knots are `[2, 3]`. -/
def iSplC5 : ISpl ℚ := ⟨true, 1, ⟨⟨1, [2, 3]⟩, (2, 3), [], true⟩⟩

/-- The raw degree-1 intercepted polynomial basis (two basis functions). -/
def opC2 : OrthP ℚ := markerOP ℚ 1

/-- An order-2 M-spline on `[0, 1]` with one interior knot at `1/2`. -/
def msplC7 : MSpl ℚ := ⟨⟨⟨2, [0, 0, 0.5, 1, 1]⟩, (0, 1), [0.5], true⟩, true⟩

/-- A natural spline configuration with explicit boundary intercepts and
slopes (the fields the outside-boundary evaluation consumes). -/
def nsC6 : NS ℚ :=
  ⟨bsRef, true, 4, [[1, 0, 0, 0], [0, 1, 0, 0], [0, 0, 1, 0], [0, 0, 0, 1]],
   [0.25, -0.5], [2, 3], [1.5, 0.75], [-1, 4]⟩

/-- A basis object around the raw degree-1 polynomial with a stored lower
limit of `5`. -/
def objC10 : BasisObj ℚ := ⟨Family.opF opC2, 5⟩

/-- Derivative orders for which an evaluation is well defined in the C++
sources (no out-of-bounds scratch access, no exception): the spline families
support orders below the spline order inside the boundary knots, and the
B-spline extrapolation supports orders `0..3` (its Taylor terms use third
derivatives, so the order must be at least 4); the polynomial family
implements every order. -/
def BS.DersOK (b : BS K) (x : K) (ders : ℤ) : Prop :=
  if x < b.boundaryKnots.1 ∨ b.boundaryKnots.2 < x then
    0 ≤ ders ∧ ders ≤ 3 ∧ 4 ≤ b.sb.order
  else ders < (b.sb.order : ℤ)

/-- Dispatch of the supported-orders condition over the five families; the
wrapped `bs` condition is only needed on the branches that reach it. -/
def Family.SupportedDers : Family K → K → ℤ → Prop
  | .bsF b, x, ders => b.DersOK x ders
  | .nsF n, x, ders =>
    ¬(x < n.bspline.boundaryKnots.1 ∨ n.bspline.boundaryKnots.2 < x) →
      ders < (n.bspline.sb.order : ℤ)
  | .isF s, x, ders => ¬x < 0 → x ≤ 1 → s.bspline.DersOK x ders
  | .msF s, x, ders => s.bspline.DersOK x ders
  | .opF _, _, _ => True

/-- The number of output cells the evaluation writes: `n_basis()` for every
family and branch except the raw-polynomial derivative branches, which
zero-fill `ders` cells (`ders - 1` without an intercept) even when that
exceeds `n_basis()`. -/
def Family.expectedWrites (f : Family K) (ders : ℤ) : ℕ :=
  match f with
  | .opF p =>
    if p.raw = true ∧ 0 < ders then
      if p.intercept then max ders.toNat p.nbv else max (ders.toNat - 1) p.nbv
    else p.nbv
  | g => g.nBasis

/-! ## Theorems -/

/-- C9 counterexample: the reference quadrature nodes are NOT strictly
increasing — already the second node is smaller than the first — and the
weights do not sum to `1` exactly (their exact decimal sum falls short of `1`
by about `2.6e-16`). -/
theorem C9_counterexample :
    nodesQ.getD 1 0 < nodesQ.getD 0 0 ∧ weightsQ.sum ≠ 1 := by
  with_unfolding_all decide

/-- C9 (amended): the reference rule is two length-100 sequences whose nodes
are strictly DECREASING and lie in `[0, 1]`, and whose weights are positive
and sum to `1` up to `1e-15` (the exact sum of the printed decimals is
`1 - 2.61e-16`). -/
theorem C9_amended :
    nodesQ.length = 100 ∧ weightsQ.length = 100 ∧
    List.Sorted (fun a b => b < a) nodesQ ∧
    (∀ q ∈ nodesQ, 0 ≤ q ∧ q ≤ 1) ∧
    (∀ w ∈ weightsQ, 0 < w) ∧
    |weightsQ.sum - 1| ≤ 1 / 10 ^ 15 := by
  refine ⟨by rfl, by rfl, ?_, ?_, ?_, ?_⟩ <;> with_unfolding_all decide

/-- C5 counterexample: for an I-spline whose boundary knots are `[2, 3]`,
the point `3/2` lies below the domain, yet evaluation at order `0` returns
the entry `1` (the code clamps at the literals `0` and `1`, not at the
boundary knots), not `0`. -/
theorem C5_counterexample :
    (3 / 2 : ℚ) < iSplC5.bspline.boundaryKnots.1 ∧
    iSplC5.eval (3 / 2) 0 = .ok ([1], false) ∧ (1 : ℚ) ≠ 0 := by
  refine ⟨by norm_num [iSplC5], ?_, by norm_num⟩
  with_unfolding_all rfl

/-- C5 (amended): the I-spline clamping thresholds are the unit interval
end points `0` and `1` irrespective of the configured knots: below `0` every
output entry is `0`; above `1` every entry is `1` at order `0` and `0` at
every derivative order `> 0`. -/
theorem C5_amended (s : ISpl K) (x : K) (ders : ℤ) :
    (x < 0 → s.eval x ders = .ok (List.replicate s.nBasis 0, false)) ∧
    (1 < x → ders = 0 → s.eval x ders = .ok (List.replicate s.nBasis 1, false)) ∧
    (1 < x → 0 < ders → s.eval x ders = .ok (List.replicate s.nBasis 0, false)) := by
  refine ⟨fun h => ?_, fun h1 h0 => ?_, fun h1 hd => ?_⟩
  · rw [ISpl.eval, if_pos h]
  · have hx0 : ¬x < 0 := not_lt.2 (le_of_lt (lt_trans one_pos h1))
    have hx1 : ¬x ≤ 1 := not_le.2 h1
    subst h0
    rw [ISpl.eval, if_neg hx0, if_neg hx1, if_neg (by omega : ¬(0 : ℤ) < 0)]
  · have hx0 : ¬x < 0 := not_lt.2 (le_of_lt (lt_trans one_pos h1))
    have hx1 : ¬x ≤ 1 := not_le.2 h1
    rw [ISpl.eval, if_neg hx0, if_neg hx1, if_pos hd]

/-- C5 witness: the amended theorem applied to the concrete configuration:
below `0` the single basis function is `0`, above `1` it is `1` at order `0`
and `0` at order `1`. -/
theorem C5_witness :
    iSplC5.eval (-1) 0 = .ok ([0], false) ∧
    iSplC5.eval (3 : ℚ) 0 = .ok ([1], false) ∧
    iSplC5.eval (3 : ℚ) 1 = .ok ([0], false) := by
  refine ⟨?_, ?_, ?_⟩
  · have h := (C5_amended iSplC5 (-1) 0).1 (by norm_num)
    simpa [iSplC5, ISpl.nBasis, BS.nBasis, SplineB.ncoef] using h
  · have h := (C5_amended iSplC5 3 0).2.1 (by norm_num) rfl
    simpa [iSplC5, ISpl.nBasis, BS.nBasis, SplineB.ncoef] using h
  · have h := (C5_amended iSplC5 3 1).2.2 (by norm_num) (by norm_num)
    simpa [iSplC5, ISpl.nBasis, BS.nBasis, SplineB.ncoef] using h

/-- C4: in the (spec-modelled) survival outcome aggregator, a record with
event indicator `0` contributes only the integrated cumulative hazard, and
flipping the indicator to `1` with identical bounds changes the contribution
by exactly the negative log-hazard-at-upper term, leaving the integral term
unchanged. -/
theorem C4_censoring (P : CumHazP ℝ) (rule : List (ℚ × ℚ)) (lower upper : ℝ) :
    survContribution Real.exp P rule false lower upper =
      cumHazQuad Real.exp P rule lower upper ∧
    survContribution Real.exp P rule true lower upper -
        survContribution Real.exp P rule false lower upper =
      -(P.logHaz upper) := by
  constructor
  · rw [survContribution, if_neg (by simp)]
    ring
  · rw [survContribution, survContribution, if_pos rfl, if_neg (by simp)]
    ring

/-- C10: storing a new lower integration limit changes neither `n_basis()`
nor `n_wmem()` nor any evaluation with derivative order `>= 0`; only the
antiderivative branches read the stored limit. -/
theorem C10_lower_limit (o : BasisObj K) (v : K) :
    (o.setLowerLimit v).nBasis = o.nBasis ∧
    (o.setLowerLimit v).nWmem = o.nWmem ∧
    ∀ (x : K) (ders : ℤ), 0 ≤ ders →
      (o.setLowerLimit v).eval x ders = o.eval x ders := by
  refine ⟨rfl, rfl, fun x ders hd => ?_⟩
  show o.fam.eval v x ders = o.fam.eval o.lowerLimit x ders
  cases o with
  | mk fam ll =>
    cases fam with
    | bsF b => rfl
    | nsF n => rfl
    | isF s => rfl
    | msF s => rfl
    | opF p =>
      show Except.ok (p.eval v x ders, false) = Except.ok (p.eval ll x ders, false)
      have hraw : ∀ (l₂ : K) (inter : Bool),
          p.evalRaw v x inter ders = p.evalRaw l₂ x inter ders := by
        intro l₂ inter
        rw [OrthP.evalRaw, OrthP.evalRaw]
        split_ifs <;> first | rfl | omega
      simp only [OrthP.eval, hraw ll]

/-- C10 witness: at the raw degree-1 polynomial object, replacing the stored
lower limit `5` by `7` leaves `n_basis`, `n_wmem` and the value evaluation at
`x = 2` unchanged. -/
theorem C10_witness :
    (objC10.setLowerLimit 7).nBasis = objC10.nBasis ∧
    (objC10.setLowerLimit 7).nWmem = objC10.nWmem ∧
    (objC10.setLowerLimit 7).eval 2 0 = objC10.eval 2 0 := by
  have h := C10_lower_limit objC10 7
  exact ⟨h.1, h.2.1, h.2.2 2 0 (by norm_num)⟩

/-- C8 counterexample: requesting the (unimplemented) antiderivative order
`-1` on the default cubic B-spline at an in-range point does NOT fail — the
call silently takes the value path and returns the basis values (the Bernstein
values at `1/2`), contradicting the claim that unimplemented orders abort
without producing a result. -/
theorem C8_counterexample :
    bsRef.eval (1 / 2) (-1) = .ok ([1 / 8, 3 / 8, 3 / 8, 1 / 8], false) ∧
    bsRef.eval (1 / 2) (-1) = bsRef.eval (1 / 2) 0 := by
  constructor
  · with_unfolding_all rfl
  · with_unfolding_all rfl

/-- C8 (amended): the only evaluation-time failure is the `bs` extrapolation
branch — outside the boundary knots an order other than `0..3` throws
`ders not implemented` — while inside the boundary every order, including
negative (antiderivative) requests, produces a result through the
`SplineBasis` paths; the polynomial family never fails. -/
theorem C8_amended (b : BS K) (x : K) (ders : ℤ) :
    ((x < b.boundaryKnots.1 ∨ b.boundaryKnots.2 < x) → (ders < 0 ∨ 3 < ders) →
      b.eval x ders = .error ("ders not implemented")) ∧
    (¬(x < b.boundaryKnots.1 ∨ b.boundaryKnots.2 < x) →
      b.eval x ders = .ok (b.evalIn x ders)) ∧
    (∀ (p : OrthP K) (ll : K), ∃ r, (Family.opF p).eval ll x ders = .ok r) := by
  refine ⟨fun hout hd => ?_, fun hin => ?_, fun p ll => ⟨_, rfl⟩⟩
  · rw [BS.eval, if_pos hout, if_neg (show ¬ders = 0 by omega),
      if_neg (show ¬ders = 1 by omega), if_neg (show ¬ders = 2 by omega),
      if_neg (show ¬ders = 3 by omega)]
  · rw [BS.eval, if_neg hin]

/-- C8 witness: the amended theorem at the default cubic B-spline: outside
the boundary the order `-1` throws, inside it produces the value-path
result. -/
theorem C8_witness :
    bsRef.eval 2 (-1) = .error ("ders not implemented") ∧
    bsRef.eval (1 / 2) 2 = .ok (bsRef.evalIn (1 / 2) 2) := by
  constructor
  · exact (C8_amended bsRef 2 (-1)).1 (by norm_num [bsRef]) (by omega)
  · exact (C8_amended bsRef (1 / 2) 2).2.1 (by norm_num [bsRef])

/-- C6: outside the boundary knots a natural spline uses only the precomputed
boundary intercepts (`tl0`/`tr0`) and slopes (`tl1`/`tr1`): the linear
extrapolation `intercept + slope * (x - boundary knot)` at order `0`, the
constant slope vector at order `1`, and all zeros at every higher order —
the closed forms mention no part of the wrapped B-spline except the boundary
knots, so the spline is never evaluated at `x`. -/
theorem C6_ns_extrapolation (n : NS K)
    (hbk : n.bspline.boundaryKnots.1 < n.bspline.boundaryKnots.2) (x : K) :
    (x < n.bspline.boundaryKnots.1 →
      n.eval x 0 = .ok ((List.range n.nBasis).map fun i =>
          n.tl0.getD i 0 + n.tl1.getD i 0 * (x - n.bspline.boundaryKnots.1),
        false) ∧
      n.eval x 1 = .ok (n.tl1, false) ∧
      ∀ ders : ℤ, 2 ≤ ders →
        n.eval x ders = .ok (List.replicate n.nBasis 0, false)) ∧
    (n.bspline.boundaryKnots.2 < x →
      n.eval x 0 = .ok ((List.range n.nBasis).map fun i =>
          n.tr0.getD i 0 + n.tr1.getD i 0 * (x - n.bspline.boundaryKnots.2),
        false) ∧
      n.eval x 1 = .ok (n.tr1, false) ∧
      ∀ ders : ℤ, 2 ≤ ders →
        n.eval x ders = .ok (List.replicate n.nBasis 0, false)) := by
  constructor
  · intro hl
    refine ⟨?_, ?_, fun ders hd => ?_⟩
    · rw [NS.eval, if_pos hl, if_pos rfl]
      exact congrArg (fun l => Except.ok (l, false))
        (List.map_congr_left fun i _ => by ring)
    · rw [NS.eval, if_pos hl, if_neg (show ¬(1 : ℤ) = 0 by omega), if_pos rfl]
    · rw [NS.eval, if_pos hl, if_neg (show ¬ders = 0 by omega),
        if_neg (show ¬ders = 1 by omega)]
  · intro hr
    have hnl : ¬x < n.bspline.boundaryKnots.1 := not_lt.2 (le_of_lt (lt_trans hbk hr))
    refine ⟨?_, ?_, fun ders hd => ?_⟩
    · rw [NS.eval, if_neg hnl, if_pos hr, if_pos rfl]
      exact congrArg (fun l => Except.ok (l, false))
        (List.map_congr_left fun i _ => by ring)
    · rw [NS.eval, if_neg hnl, if_pos hr, if_neg (show ¬(1 : ℤ) = 0 by omega),
        if_pos rfl]
    · rw [NS.eval, if_neg hnl, if_pos hr, if_neg (show ¬ders = 0 by omega),
        if_neg (show ¬ders = 1 by omega)]

/-- C6 witness: the natural-spline extrapolation theorem at the concrete
configuration, left of the boundary at order `1` and right of it at order
`5`. -/
theorem C6_witness :
    nsC6.eval (-1) 1 = .ok (nsC6.tl1, false) ∧
    nsC6.eval (2 : ℚ) 5 = .ok (List.replicate nsC6.nBasis 0, false) := by
  constructor
  · exact ((C6_ns_extrapolation nsC6 (by norm_num [nsC6, bsRef]) (-1)).1
      (by norm_num [nsC6, bsRef])).2.1
  · exact ((C6_ns_extrapolation nsC6 (by norm_num [nsC6, bsRef]) 2).2
      (by norm_num [nsC6, bsRef])).2.2 5 (by omega)

/-- C7: for every M-spline, every evaluation point and every order at which
the wrapped B-spline produces a result, output entry `j` is the B-spline
coefficient `j` (shifted by one when there is no intercept) rescaled by
`MSpl.scale` — that is, by `order / (knots[j + order] - knots[j])` when the
knot span is strictly positive and by `0` otherwise — and the
division-by-zero flag is passed through unchanged. -/
theorem C7_mspline_rescaling (s : MSpl K) (x : K) (ders : ℤ) (v : List K)
    (fl : Bool) (h : s.bspline.eval x ders = .ok (v, fl)) :
    ∃ w, s.eval x ders = .ok (w, fl) ∧
      w.length = s.bspline.nBasis - (if s.intercept then 0 else 1) ∧
      ∀ j, j + (if s.intercept then 0 else 1) < s.bspline.nBasis →
        w.getD j 0 = v.getD (j + (if s.intercept then 0 else 1)) 0 *
          s.scale (j + (if s.intercept then 0 else 1)) := by
  have hmap : ∀ (m : ℕ) (i : ℕ), i < m →
      ((List.range m).map fun j => v.getD j 0 * s.scale j).getD i 0 =
        v.getD i 0 * s.scale i := by
    intro m i him
    have hlen : i < ((List.range m).map fun j => v.getD j 0 * s.scale j).length := by
      simpa using him
    rw [List.getD_eq_getElem _ _ hlen]
    simp
  refine ⟨if s.intercept then
      (List.range s.bspline.nBasis).map fun j => v.getD j 0 * s.scale j
    else ((List.range s.bspline.nBasis).map fun j => v.getD j 0 * s.scale j).drop 1,
    ?_, ?_, ?_⟩
  · rw [MSpl.eval, h]
  · cases hi : s.intercept <;> simp [hi]
  · intro j hj
    cases hi : s.intercept
    · simp only [hi, Bool.false_eq_true, if_false] at hj ⊢
      have hlen : 1 + j <
          ((List.range s.bspline.nBasis).map fun j => v.getD j 0 * s.scale j).length := by
        simpa using by omega
      have hd : (((List.range s.bspline.nBasis).map
            fun j => v.getD j 0 * s.scale j).drop 1).getD j 0 =
          ((List.range s.bspline.nBasis).map fun j => v.getD j 0 * s.scale j).getD
            (1 + j) 0 := by
        rw [List.getD_eq_getElem _ _ (by simpa using by omega),
          List.getD_eq_getElem _ _ hlen]
        exact (List.getElem_drop' _ (by simpa using hlen)).symm
      rw [hd, hmap _ _ (by omega), Nat.add_comm 1 j]
    · simp only [hi, if_true] at hj ⊢
      rw [hmap _ _ (by omega), Nat.add_zero]

/-- C7 witness: the rescaling relation at the concrete order-2 M-spline with
an interior knot at `1/2`, evaluated at `1/4`: the B-spline values
`[1/2, 1/2, 0]` are rescaled by `2/(1/2), 2/1, 2/(1/2)` to `[2, 1, 0]`. -/
theorem C7_witness :
    ∃ w, msplC7.eval (1 / 4) 0 = .ok (w, false) ∧
      w.length = msplC7.bspline.nBasis - (if msplC7.intercept then 0 else 1) ∧
      ∀ j, j + (if msplC7.intercept then 0 else 1) < msplC7.bspline.nBasis →
        w.getD j 0 = ([(1 : ℚ) / 2, 1 / 2, 0].getD
            (j + (if msplC7.intercept then 0 else 1)) 0) *
          msplC7.scale (j + (if msplC7.intercept then 0 else 1)) :=
  C7_mspline_rescaling msplC7 (1 / 4) 0 [(1 : ℚ) / 2, 1 / 2, 0] false
    (by with_unfolding_all rfl)

/-- The zero-guarded inner recurrence never performs a division by zero: its
flag component is returned unchanged. -/
theorem bfInnerGuard_flag (sb : SplineB K) (curs : ℕ) (x : K) (j : ℕ) :
    ∀ (n r : ℕ) (b : List K) (saved : K) (fl : Bool),
      (bfInnerGuard sb curs x j r n (b, saved, fl)).2.2 = fl := by
  intro n
  induction n with
  | zero => intro r b saved fl; rfl
  | succ m ih =>
    intro r b saved fl
    rw [bfInnerGuard]
    split_ifs <;> exact ih _ _ _ _

/-- The branch-free fast inner recurrence leaves the flag unchanged whenever
every denominator it meets is nonzero. -/
theorem bfInnerFast_flag (sb : SplineB K) (curs : ℕ) (x : K) (j : ℕ) :
    ∀ (n r : ℕ) (b : List K) (saved : K) (fl : Bool),
      (∀ t, t < n →
        sb.rdel curs x (r + t) + sb.ldel curs x (j - 1 - (r + t)) ≠ 0) →
      (bfInnerFast sb curs x j r n (b, saved, fl)).2.2 = fl := by
  intro n
  induction n with
  | zero => intro r b saved fl _; rfl
  | succ m ih =>
    intro r b saved fl hden
    rw [bfInnerFast]
    have h0 : sb.rdel curs x r + sb.ldel curs x (j - 1 - r) ≠ 0 := by
      have := hden 0 (by omega)
      simpa using this
    rw [decide_eq_false h0, Bool.or_false]
    exact ih (r + 1) _ _ _ fun t ht => by
      have := hden (t + 1) (by omega)
      simpa [Nat.add_assoc, Nat.add_comm 1 t] using this

/-- The outer `basis_funcs` loop leaves the flag unchanged: unconditionally
on the guarded path, and on the fast path when every denominator of every
processed column is nonzero. -/
theorem bfOuter_flag (sb : SplineB K) (curs : ℕ) (x : K) (fast : Bool) :
    ∀ (m j : ℕ) (b : List K) (fl : Bool),
      (fast = true → ∀ j' r, j ≤ j' → j' < j + m → r < j' →
        sb.rdel curs x r + sb.ldel curs x (j' - 1 - r) ≠ 0) →
      (bfOuter sb curs x fast j m (b, fl)).2 = fl := by
  intro m
  induction m with
  | zero => intro j b fl _; rfl
  | succ m ih =>
    intro j b fl hden
    simp only [bfOuter]
    rw [ih (j + 1) _ _ fun hft j' r h1 h2 hr => hden hft j' r (by omega) (by omega) hr]
    by_cases hf : fast = true
    · rw [if_pos hf]
      exact bfInnerFast_flag sb curs x j j 0 b 0 fl fun t ht => by
        have := hden hf j t (le_refl j) (by omega) (by omega)
        simpa using this
    · rw [if_neg hf]
      exact bfInnerGuard_flag sb curs x j j 0 b 0 fl

/-- Every denominator that the fast value path meets at an in-range cursor is
one of the knot-span differences that `set_no_div_zero` scanned, so
`no_div_zero = true` makes them all nonzero. -/
theorem noDivZero_den (sb : SplineB K) (hnd : sb.noDivZero = true)
    (curs : ℕ) (hc1 : sb.order ≤ curs) (hc2 : curs ≤ sb.ncoef)
    (hord : 1 ≤ sb.order) (hlen : sb.order < sb.knots.length)
    (x : K) (j r : ℕ) (hj1 : 1 ≤ j) (hj2 : j ≤ sb.ordm1) (hr : r < j) :
    sb.rdel curs x r + sb.ldel curs x (j - 1 - r) ≠ 0 := by
  have hid : sb.rdel curs x r + sb.ldel curs x (j - 1 - r) =
      sb.knots.getD (curs + r) 0 - sb.knots.getD (curs - (j - r)) 0 := by
    rw [SplineB.rdel, SplineB.ldel]
    have : j - 1 - r + 1 = j - r := by omega
    rw [this]
    ring
  rw [hid]
  have hnd' := hnd
  rw [SplineB.noDivZero, List.all_eq_true] at hnd'
  have hordm1 : sb.ordm1 = sb.order - 1 := rfl
  have hendif : sb.ordm1 < sb.knots.length := by omega
  have hnc : sb.ncoef = sb.knots.length - sb.order := by
    rw [SplineB.ncoef, if_pos hlen]
  have hmem : curs ∈ List.range' sb.order
      ((if sb.ordm1 < sb.knots.length then sb.knots.length - sb.ordm1
        else sb.order) - sb.order) := by
    rw [if_pos hendif, List.mem_range'_1]
    constructor
    · exact hc1
    · rw [SplineB.ordm1]
      rw [SplineB.ordm1] at hj2
      omega
  have h1 := hnd' curs hmem
  rw [List.all_eq_true] at h1
  have hjm : j ∈ List.range' 1 sb.ordm1 := by
    rw [List.mem_range'_1]
    omega
  have h2 := h1 j hjm
  rw [List.all_eq_true] at h2
  have h3 := h2 r (by rw [List.mem_range]; exact hr)
  exact of_decide_eq_true h3

/-- The `basis_funcs` entry point never sets the division-by-zero flag at an
in-range cursor: the guarded path never divides by zero, and on the fast
path (selected exactly when `no_div_zero` holds) all denominators are
nonzero knot spans. -/
theorem basisFuncs_flag (sb : SplineB K) (curs : ℕ) (x : K)
    (hc1 : sb.order ≤ curs) (hc2 : curs ≤ sb.ncoef)
    (hord : 1 ≤ sb.order) (hlen : sb.order < sb.knots.length) :
    (sb.basisFuncs curs x).2 = false := by
  rw [SplineB.basisFuncs]
  apply bfOuter_flag
  intro hf j' r h1 h2 hr
  exact noDivZero_den sb hf curs hc1 hc2 hord hlen x j' r h1 (by omega) hr

/-- C3 counterexample: on the order-3 basis with the triple knot `1`, the
first-derivative recurrence at `x = 1` performs a division by zero (the flag
is set, so in the C++ arithmetic a non-finite value is produced and
propagated, not a zero contribution), even though the construction-time scan
detected the zero span (`no_div_zero = false`); the `no_div_zero` guard is
consulted only by the value recurrence. -/
theorem C3_counterexample :
    (sbDeg.eval 1 1).2 = true ∧ sbDeg.noDivZero = false := by
  constructor
  · with_unfolding_all rfl
  · with_unfolding_all rfl

/-- C3 (amended): in the VALUE recurrence (`ders <= 0`), a zero denominator
never propagates: the construction-time `no_div_zero` scan selects the
branch-free fast path only when every knot-span denominator is nonzero, and
otherwise selects the zero-guarded path, which substitutes zero instead of
dividing; the DERIVATIVE recurrence (`ders > 0`), however, divides without
any guard and can divide by zero (the source marks it `FIXME: divides by
zero`), as the order-3 triple-knot example shows. -/
theorem C3_amended :
    (∀ (sb : SplineB K) (x : K) (ders : ℤ), 1 ≤ sb.order →
        (sb.setCursor x).1 ≤ sb.ncoef → ders ≤ 0 → (sb.eval x ders).2 = false) ∧
    (sbDeg.eval 1 1).2 = true := by
  constructor
  · intro sb x ders hord hcurs hders
    simp only [SplineB.eval]
    by_cases hz : (sb.setCursor x).1 < sb.order ∨
        sb.knots.length < (sb.setCursor x).1 - sb.order
    · rw [if_pos hz]
    · rw [if_neg hz, if_neg (show ¬0 < ders by omega)]
      show (sb.basisFuncs (sb.setCursor x).1 x).2 = false
      push_neg at hz
      have hlen : sb.order < sb.knots.length := by
        by_contra hcon
        have : sb.ncoef = 0 := by rw [SplineB.ncoef, if_neg hcon]
        omega
      exact basisFuncs_flag sb _ x (by omega) hcurs hord hlen
  · with_unfolding_all rfl

/-- C3 witness: the guarded value path at the degenerate order-3 basis (whose
`no_div_zero` scan failed) evaluates at the triple knot without any division
by zero. -/
theorem C3_witness : (sbDeg.eval 1 0).2 = false :=
  (C3_amended (K := ℚ)).1 sbDeg 1 0 (by norm_num [sbDeg])
    (by with_unfolding_all decide) (by omega)

/-- The cursor loop stops at the first knot strictly greater than `x`. -/
theorem setCursorLoop_first_gt (x : K) :
    ∀ (ks : List K) (m i c : ℕ), (∀ j, j < m → ¬x < ks.getD j 0) →
      m < ks.length → x < ks.getD m 0 → setCursorLoop x ks i c = i + m := by
  intro ks
  induction ks with
  | nil => intro m i c _ hm; exact absurd hm (by simp)
  | cons k t ih =>
    intro m i c hbefore hm hx
    cases m with
    | zero =>
      have hk : x < k := by simpa using hx
      rw [setCursorLoop, if_pos hk, if_pos (le_of_lt hk)]
      omega
    | succ m' =>
      have hk : ¬x < k := by simpa using hbefore 0 (by omega)
      rw [setCursorLoop, if_neg hk]
      have hm' : m' < t.length := by
        simp only [List.length_cons] at hm; omega
      have := ih m' (i + 1) (if x ≤ k then i else c)
        (fun j hj => by simpa using hbefore (j + 1) (by omega))
        hm' (by simpa using hx)
      rw [this]
      omega

/-- When no knot exceeds `x` but the last knot is at least `x`, the cursor
loop returns the last index. -/
theorem setCursorLoop_no_gt (x : K) :
    ∀ (ks : List K) (i c : ℕ), (∀ j, j < ks.length → ¬x < ks.getD j 0) →
      ks ≠ [] → x ≤ ks.getD (ks.length - 1) 0 →
      setCursorLoop x ks i c = i + ks.length - 1 := by
  intro ks
  induction ks with
  | nil => intro i c _ hne; exact absurd rfl hne
  | cons k t ih =>
    intro i c hall hne hlast
    have hk : ¬x < k := by simpa using hall 0 (by simp)
    cases t with
    | nil =>
      have hxk : x ≤ k := by simpa using hlast
      rw [setCursorLoop, if_neg hk, setCursorLoop, if_pos hxk]
      simp
    | cons k' t' =>
      rw [setCursorLoop, if_neg hk]
      have hall' : ∀ j, j < (k' :: t').length → ¬x < (k' :: t').getD j 0 := by
        intro j hj
        have := hall (j + 1) (by simp only [List.length_cons] at hj ⊢; omega)
        simpa using this
      have := ih (i + 1) (if x ≤ k then i else c) hall' (by simp)
        (by simpa using hlast)
      rw [this]
      simp only [List.length_cons]
      omega

/-- Every knot of a valid `bs` knot vector lies between the boundary knots:
the first `order` knots are the left boundary knot, the knots from position
`order + nik` on are the right boundary knot, and the knots before that
position are at most the left boundary knot or strictly between the
boundaries. -/
theorem BS.knots_getD (b : BS K) (hv : b.Valid) :
    b.sb.knots.length = 2 * b.sb.order + b.interiorKnots.length ∧
    (∀ j, j < b.sb.order → b.sb.knots.getD j 0 = b.boundaryKnots.1) ∧
    (∀ j, b.sb.order + b.interiorKnots.length ≤ j → j < b.sb.knots.length →
      b.sb.knots.getD j 0 = b.boundaryKnots.2) ∧
    (∀ j, j < b.sb.order + b.interiorKnots.length →
      b.sb.knots.getD j 0 = b.boundaryKnots.1 ∨
      (b.boundaryKnots.1 < b.sb.knots.getD j 0 ∧
        b.sb.knots.getD j 0 < b.boundaryKnots.2)) := by
  obtain ⟨hord, hknots, hlt, hik, _, _⟩ := hv
  have hablen : (List.replicate b.sb.order b.boundaryKnots.1 ++
      b.interiorKnots).length = b.sb.order + b.interiorKnots.length := by simp
  have hlen : b.sb.knots.length = 2 * b.sb.order + b.interiorKnots.length := by
    rw [hknots]; simp; omega
  have hlow : ∀ j, j < b.sb.order → b.sb.knots.getD j 0 = b.boundaryKnots.1 := by
    intro j hj
    rw [hknots, List.getD_append _ _ _ _ (by rw [hablen]; omega),
      List.getD_append _ _ _ _ (by simpa using hj),
      List.getD_eq_getElem _ _ (by simpa using hj)]
    simp
  have hmid : ∀ j, b.sb.order ≤ j → j < b.sb.order + b.interiorKnots.length →
      b.sb.knots.getD j 0 ∈ b.interiorKnots := by
    intro j h1 h2
    rw [hknots, List.getD_append _ _ _ _ (by rw [hablen]; omega),
      List.getD_append_right _ _ _ _ (by simpa using h1),
      List.getD_eq_getElem _ _ (by simp; omega)]
    exact List.getElem_mem _
  refine ⟨hlen, hlow, ?_, ?_⟩
  · intro j h1 h2
    rw [hknots, List.getD_append_right _ _ _ _ (by rw [hablen]; omega),
      List.getD_eq_getElem _ _ (by simp [hablen]; omega)]
    simp
  · intro j hj
    by_cases h1 : j < b.sb.order
    · exact Or.inl (hlow j h1)
    · exact Or.inr (hik _ (hmid j (by omega) hj))

/-- For every valid `bs` and every point between the boundary knots, the
(boundary-adjusted) cursor lies in `[order, ncoef]`; this is the range the
`set_no_div_zero` scan covers and keeps all basis-table writes inside the
output buffer. -/
theorem BS.curs_range (b : BS K) (hv : b.Valid) (x : K)
    (h1 : ¬x < b.boundaryKnots.1) (h2 : ¬b.boundaryKnots.2 < x) :
    b.sb.order ≤ (b.sb.setCursor x).1 ∧ (b.sb.setCursor x).1 ≤ b.sb.ncoef := by
  obtain ⟨hlen, hlow, hhigh, hmid⟩ := BS.knots_getD b hv
  have hord : 1 ≤ b.sb.order := hv.1
  have hbk : b.boundaryKnots.1 < b.boundaryKnots.2 := hv.2.2.1
  have hncoef : b.sb.ncoef = b.sb.order + b.interiorKnots.length := by
    rw [SplineB.ncoef, if_pos (by omega)]; omega
  have hcnl : b.sb.ncoef < b.sb.knots.length := by omega
  rw [SplineB.setCursor]
  by_cases hxb : x < b.boundaryKnots.2
  · -- some knot exceeds x: the cursor is the first such index
    have hPnc : x < b.sb.knots.getD b.sb.ncoef 0 := by
      rw [hhigh b.sb.ncoef (by omega) (by omega)]; exact hxb
    have hex : ∃ m, x < b.sb.knots.getD m 0 := ⟨b.sb.ncoef, hPnc⟩
    set m := Nat.find hex with hm
    have hspec : x < b.sb.knots.getD m 0 := Nat.find_spec hex
    have hmin : ∀ j, j < m → ¬x < b.sb.knots.getD j 0 := fun j hj =>
      Nat.find_min hex hj
    have hmnc : m ≤ b.sb.ncoef := Nat.find_min' hex hPnc
    have hmo : b.sb.order ≤ m := by
      by_contra hcon
      exact absurd hspec (by rw [hlow m (by omega)]; exact h1)
    rw [setCursorLoop_first_gt x b.sb.knots m 0 0 hmin (by omega) hspec]
    rw [if_neg (by omega)]
    exact ⟨by omega, by omega⟩
  · -- x equals the right boundary knot: the loop returns the last index and
    -- the boundary adjustment resets the cursor to ncoef
    have hxeq : x = b.boundaryKnots.2 := le_antisymm (not_lt.1 h2) (not_lt.1 hxb)
    have hall : ∀ j, j < b.sb.knots.length → ¬x < b.sb.knots.getD j 0 := by
      intro j hj
      by_cases hjc : j < b.sb.order + b.interiorKnots.length
      · rcases hmid j hjc with h | h
        · rw [h]; rw [hxeq]; exact not_lt.2 (le_of_lt hbk)
        · rw [hxeq]; exact not_lt.2 (le_of_lt h.2)
      · rw [hhigh j (by omega) hj, hxeq]; exact lt_irrefl _
    have hne : b.sb.knots ≠ [] := by
      intro hcon
      rw [hcon] at hlen
      simp at hlen
      omega
    have hlast : x ≤ b.sb.knots.getD (b.sb.knots.length - 1) 0 := by
      rw [hhigh (b.sb.knots.length - 1) (by omega) (by omega), hxeq]
    rw [setCursorLoop_no_gt x b.sb.knots 0 0 hall hne hlast]
    by_cases hc : b.sb.ncoef < 0 + b.sb.knots.length - 1
    · rw [if_pos hc, if_pos (by rw [hhigh b.sb.ncoef (by omega) (by omega)]; exact hxeq)]
      exact ⟨by omega, le_refl _⟩
    · rw [if_neg hc]
      exact ⟨by omega, by omega⟩

/-- At an in-range cursor, the cells written by `SplineBasis::operator()` are
exactly `[0, ncoef)`: the table segment `[io, io + order)` ends at the cursor
and so stays inside the zero-filled prefix. -/
theorem SplineB.writes_inrange (sb : SplineB K) (x : K)
    (hc1 : sb.order ≤ (sb.setCursor x).1) (hc2 : (sb.setCursor x).1 ≤ sb.ncoef) :
    sb.writes x = Finset.range sb.ncoef := by
  have hcl : sb.ncoef ≤ sb.knots.length := by
    rw [SplineB.ncoef]
    split_ifs <;> omega
  rw [SplineB.writes]
  rw [if_neg (by push_neg; constructor <;> omega)]
  apply Finset.union_eq_left.mpr
  intro t ht
  rw [Finset.mem_Ico] at ht
  rw [Finset.mem_range]
  omega

/-- The extrapolation pivot of a valid `bs` lies between the boundary knots,
so the recursive `bs::operator()` calls of the extrapolation branch always
land in the in-range branch. -/
theorem BS.kPivot_mem (b : BS K) (hv : b.Valid) (x : K) :
    ¬b.kPivot x < b.boundaryKnots.1 ∧ ¬b.boundaryKnots.2 < b.kPivot x := by
  obtain ⟨hlen, hlow, hhigh, hmid⟩ := BS.knots_getD b hv
  have hord : 1 ≤ b.sb.order := hv.1
  have hbk : b.boundaryKnots.1 < b.boundaryKnots.2 := hv.2.2.1
  have hrange : ∀ j, j < b.sb.knots.length →
      b.boundaryKnots.1 ≤ b.sb.knots.getD j 0 ∧
      b.sb.knots.getD j 0 ≤ b.boundaryKnots.2 := by
    intro j hj
    by_cases hjc : j < b.sb.order + b.interiorKnots.length
    · rcases hmid j hjc with h | h
      · rw [h]; exact ⟨le_refl _, le_of_lt hbk⟩
      · exact ⟨le_of_lt h.1, le_of_lt h.2⟩
    · rw [hhigh j (by omega) hj]; exact ⟨le_of_lt hbk, le_refl _⟩
  rw [BS.kPivot]
  by_cases hx : x < b.boundaryKnots.1
  · rw [if_pos hx]
    have hgt : b.boundaryKnots.1 < b.sb.knots.getD b.sb.order 0 := by
      by_cases hc : b.sb.order < b.sb.order + b.interiorKnots.length
      · -- position `order` is the first interior knot, strictly above bk0
        have hm : b.sb.knots.getD b.sb.order 0 ∈ b.interiorKnots := by
          rw [hv.2.1, List.getD_append _ _ _ _ (by simp; omega),
            List.getD_append_right _ _ _ _ (by simp),
            List.getD_eq_getElem _ _ (by simp; omega)]
          exact List.getElem_mem _
        exact (hv.2.2.2.1 _ hm).1
      · rw [hhigh b.sb.order (by omega) (by omega)]; exact hbk
    constructor
    · push_neg
      nlinarith [hgt]
    · push_neg
      have := (hrange b.sb.order (by omega)).2
      nlinarith [hbk]
  · rw [if_neg hx]
    have hidx : b.sb.knots.length - b.sb.order - 2 < b.sb.knots.length := by omega
    have hlt2 : b.sb.knots.getD (b.sb.knots.length - b.sb.order - 2) 0 <
        b.boundaryKnots.2 := by
      by_cases hjc : b.sb.knots.length - b.sb.order - 2 <
          b.sb.order + b.interiorKnots.length
      · rcases hmid _ hjc with h | h
        · rw [h]; exact hbk
        · exact h.2
      · omega
    have hge := (hrange _ hidx).1
    constructor
    · push_neg
      nlinarith [hbk]
    · push_neg
      nlinarith [hlt2]

/-- Under the supported-order side conditions, a `bs` evaluation always
produces a result. -/
theorem BS.eval_ok (b : BS K) (x : K) (ders : ℤ) (h : b.DersOK x ders) :
    ∃ r, b.eval x ders = .ok r := by
  rw [BS.eval]
  by_cases hout : x < b.boundaryKnots.1 ∨ b.boundaryKnots.2 < x
  · rw [BS.DersOK, if_pos hout] at h
    rw [if_pos hout]
    by_cases h0 : ders = 0
    · rw [if_pos h0]; exact ⟨_, rfl⟩
    · rw [if_neg h0]
      by_cases hd1 : ders = 1
      · rw [if_pos hd1]; exact ⟨_, rfl⟩
      · rw [if_neg hd1]
        by_cases hd2 : ders = 2
        · rw [if_pos hd2]; exact ⟨_, rfl⟩
        · rw [if_neg hd2, if_pos (by omega)]; exact ⟨_, rfl⟩
  · rw [if_neg hout]
    exact ⟨_, rfl⟩

/-- The successive-multiplication loop writes one cell per basis function. -/
theorem rawPow_length (x : K) : ∀ (n : ℕ) (v : K), (rawPow x v n).length = n := by
  intro n
  induction n with
  | zero => intro v; rfl
  | succ m ih => intro v; simp [rawPow, ih]

/-- The antiderivative loop writes one cell per basis function. -/
theorem radLoop_length (x ll : K) (uders : ℕ) (inter : Bool) :
    ∀ (m c : ℕ) (st : K × K), (radLoop x ll uders inter c m st).length = m := by
  intro m
  induction m with
  | zero => intro c st; rfl
  | succ m' ih =>
    intro c st
    rw [radLoop]
    simp [ih]

/-- Number of cells the `eval_raw` buffer holds: `n_basis_v` for values and
antiderivatives, and the zero-fill/loop maximum for derivatives. -/
theorem OrthP.evalRaw_length (p : OrthP K) (ll x : K) (inter : Bool) (ders : ℤ) :
    (p.evalRaw ll x inter ders).length =
      if 0 < ders then
        (if inter then max ders.toNat p.nbv else max (ders.toNat - 1) p.nbv)
      else p.nbv := by
  rw [OrthP.evalRaw]
  by_cases h0 : ders = 0
  · subst h0
    cases inter <;> simp [rawPow_length]
  · rw [if_neg h0]
    by_cases hneg : ders < 0
    · rw [if_pos hneg]
      simp only [radLoop_length]
      rw [if_neg (show ¬(0 : ℤ) < ders by omega)]
    · rw [if_neg hneg, if_pos (show (0 : ℤ) < ders by omega)]
      cases inter <;> simp

/-- C2 counterexample: the raw degree-1 intercepted polynomial has
`n_basis() = 2`, yet requesting derivative order `5` writes 5 output cells
(the `std::fill(out, out + ders, 0)` zero-fill runs past the basis count). -/
theorem C2_counterexample :
    (Family.opF opC2).writes (2 : ℚ) 5 = .ok (Finset.range 5) ∧
    (Family.opF opC2).nBasis = 2 ∧ Finset.range 5 ≠ Finset.range 2 := by
  refine ⟨by with_unfolding_all rfl, by with_unfolding_all rfl, by decide⟩

/-- C2 (amended): for every valid configuration of the five families and
every supported derivative/antiderivative order, the evaluation writes
exactly `n_basis()` output cells — except that a raw-polynomial derivative
request zero-fills `ders` cells with an intercept (`ders - 1` without one)
even when that exceeds `n_basis()`; `n_basis()` itself is a pure function of
the configuration and identical across all calls. -/
theorem C2_amended (f : Family K) (hv : f.Valid) (x : K) (ders : ℤ)
    (hd : f.SupportedDers x ders) :
    f.writes x ders = .ok (Finset.range (f.expectedWrites ders)) := by
  cases f with
  | opF p =>
    show Except.ok (p.writes x ders) = _
    rw [OrthP.writes, Family.expectedWrites]
    by_cases hr : p.raw = true
    · rw [if_pos hr, OrthP.evalRaw_length]
      by_cases hpos : 0 < ders
      · rw [if_pos hpos, if_pos (And.intro hr hpos)]
      · rw [if_neg hpos, if_neg (fun hc => hpos hc.2)]
    · rw [if_neg hr, if_neg (fun hc => hr hc.1)]
  | bsF b =>
    show b.writes x ders = Except.ok (Finset.range b.nBasis)
    rw [BS.writes]
    by_cases hout : x < b.boundaryKnots.1 ∨ b.boundaryKnots.2 < x
    · rw [Family.SupportedDers, BS.DersOK, if_pos hout] at hd
      rw [if_pos hout, if_pos (by omega)]
    · rw [if_neg hout]
      by_cases hi : b.intercept = true
      · rw [if_pos hi]
        push_neg at hout
        obtain ⟨hc1, hc2⟩ :=
          BS.curs_range b hv x (not_lt.2 hout.1) (not_lt.2 hout.2)
        rw [SplineB.writes_inrange b.sb x hc1 hc2]
        have : b.nBasis = b.sb.ncoef := by rw [BS.nBasis, hi]; simp
        rw [this]
      · rw [if_neg hi]
  | nsF n =>
    show n.writes x ders = Except.ok (Finset.range n.nBasis)
    obtain ⟨hbv, hq, hl0, hl1, hr0, hr1⟩ := hv
    rw [NS.writes]
    by_cases hl : x < n.bspline.boundaryKnots.1
    · rw [if_pos hl]
      by_cases h1 : ders = 1
      · rw [if_pos h1, hl1]
      · rw [if_neg h1]
    · rw [if_neg hl]
      by_cases hrr : n.bspline.boundaryKnots.2 < x
      · rw [if_pos hrr]
        by_cases h1 : ders = 1
        · rw [if_pos h1, hr1]
        · rw [if_neg h1]
      · have hok : n.bspline.eval x ders = .ok (n.bspline.evalIn x ders) := by
          rw [BS.eval, if_neg (by push_neg; exact ⟨not_lt.1 hl, not_lt.1 hrr⟩)]
        rw [if_neg hrr, hok]
        rfl
  | isF s =>
    show s.writes x ders = Except.ok (Finset.range s.nBasis)
    rw [ISpl.writes]
    by_cases h0 : x < 0
    · rw [if_pos h0]
    · rw [if_neg h0]
      by_cases h1 : x ≤ 1
      · rw [if_pos h1]
        obtain ⟨r, hr⟩ := BS.eval_ok s.bspline x ders (hd h0 h1)
        rw [hr]
      · rw [if_neg h1]
  | msF s =>
    show s.writes x ders = Except.ok (Finset.range s.nBasis)
    rw [MSpl.writes]
    obtain ⟨r, hr⟩ := BS.eval_ok s.bspline x ders hd
    rw [hr]

/-- C2 witness: the amended theorem at the raw degree-1 polynomial with
order 5: exactly `max 5 2 = 5` cells are written. -/
theorem C2_witness :
    (Family.opF opC2).writes (2 : ℚ) 5 =
      .ok (Finset.range ((Family.opF opC2).expectedWrites 5)) :=
  C2_amended (Family.opF opC2)
    ⟨by norm_num [opC2, markerOP], fun h => by simp [opC2, markerOP] at h⟩
    2 5 trivial

/-- The truncated rational Taylor series casts to the real Taylor sum. -/
theorem expTq_cast (q : ℚ) :
    ∀ n : ℕ, ((expTq q n : ℚ) : ℝ) =
      ∑ i ∈ Finset.range n, (q : ℝ) ^ i / (Nat.factorial i : ℝ) := by
  intro n
  induction n with
  | zero => simp [expTq]
  | succ m ih =>
    rw [expTq, Finset.sum_range_succ, ← ih]
    push_cast
    ring

/-- The truncated Taylor series of a nonnegative argument is nonnegative. -/
theorem expTq_nonneg (q : ℚ) (hq : 0 ≤ q) : ∀ n : ℕ, 0 ≤ expTq q n := by
  intro n
  induction n with
  | zero => exact le_refl 0
  | succ m ih =>
    rw [expTq]
    have h1 : 0 ≤ q ^ m / (Nat.factorial m : ℚ) := by positivity
    linarith

/-- Lower Taylor bound: for a nonnegative argument the truncated series is a
lower bound for the exponential. -/
theorem expTq_le_exp (q : ℚ) (hq : 0 ≤ q) (n : ℕ) :
    ((expTq q n : ℚ) : ℝ) ≤ Real.exp q := by
  rw [expTq_cast]
  exact Real.sum_le_exp_of_nonneg (by exact_mod_cast hq) n

/-- Upper Taylor bound with the `Real.exp_bound` remainder, for arguments in
`[0, 1]`. -/
theorem exp_le_expTq_err (q : ℚ) (h0 : 0 ≤ q) (h1 : q ≤ 1) (n : ℕ)
    (hn : 0 < n) :
    Real.exp q ≤ ((expTq q n + errT q n : ℚ) : ℝ) := by
  have h := Real.exp_bound' (x := (q : ℝ)) (by exact_mod_cast h0)
    (by exact_mod_cast h1) hn
  have hcast : ((expTq q n + errT q n : ℚ) : ℝ) =
      (∑ i ∈ Finset.range n, (q : ℝ) ^ i / (Nat.factorial i : ℝ)) +
        (q : ℝ) ^ n * (n + 1) / ((Nat.factorial n : ℝ) * n) := by
    push_cast [expTq_cast, errT]
    ring
  rw [hcast]
  exact h

/-- The rational constant `eLo` bounds `Real.exp 1` from below. -/
theorem eLo_le : ((eLo : ℚ) : ℝ) ≤ Real.exp 1 := by
  have := expTq_le_exp 1 (by norm_num) 15
  rw [eLo]
  simpa using this

/-- The rational constant `eHi` bounds `Real.exp 1` from above. -/
theorem le_eHi : Real.exp 1 ≤ ((eHi : ℚ) : ℝ) := by
  have := exp_le_expTq_err 1 (by norm_num) (le_refl 1) 15 (by norm_num)
  rw [eHi]
  simpa using this

/-- The constant `eLo` is positive. -/
theorem eLo_pos : (0 : ℚ) < eLo := by with_unfolding_all decide

/-- Soundness of the rational lower bound for the exponential of a
nonnegative rational. -/
theorem expLo_le (q : ℚ) (hq : 0 ≤ q) :
    ((expLo q : ℚ) : ℝ) ≤ Real.exp q := by
  have hm0 : (0 : ℤ) ≤ ⌊q⌋ := Int.floor_nonneg.2 hq
  have hr0 : (0 : ℚ) ≤ q - ⌊q⌋ := by
    have := Int.floor_le q
    linarith
  have hsplit : (q : ℝ) = ((⌊q⌋ : ℚ) : ℝ) + ((q - ⌊q⌋ : ℚ) : ℝ) := by
    push_cast
    ring
  have hexpm : Real.exp ((⌊q⌋ : ℚ) : ℝ) = Real.exp 1 ^ ⌊q⌋.toNat := by
    have h1 : ((⌊q⌋ : ℚ) : ℝ) = ((⌊q⌋.toNat : ℕ) : ℝ) := by
      have h2 : ((⌊q⌋.toNat : ℤ)) = ⌊q⌋ := Int.toNat_of_nonneg hm0
      exact_mod_cast h2.symm
    rw [h1, ← Real.exp_nat_mul 1 ⌊q⌋.toNat, mul_one]
  have hpow : ((eLo : ℚ) : ℝ) ^ ⌊q⌋.toNat ≤ Real.exp 1 ^ ⌊q⌋.toNat :=
    pow_le_pow_left (by exact_mod_cast le_of_lt eLo_pos) eLo_le _
  have htay : ((expTq (q - ⌊q⌋) 10 : ℚ) : ℝ) ≤ Real.exp ((q - ⌊q⌋ : ℚ) : ℝ) :=
    expTq_le_exp _ hr0 10
  have hcast : ((expLo q : ℚ) : ℝ) =
      ((eLo : ℚ) : ℝ) ^ ⌊q⌋.toNat * ((expTq (q - ⌊q⌋) 10 : ℚ) : ℝ) := by
    rw [expLo]
    push_cast
    ring
  rw [hcast, hsplit, Real.exp_add, hexpm]
  exact mul_le_mul hpow htay (by exact_mod_cast expTq_nonneg _ hr0 10)
    (pow_nonneg (le_of_lt (Real.exp_pos 1)) _)

/-- Soundness of the rational upper bound for the exponential of a
nonnegative rational. -/
theorem le_expHi (q : ℚ) (hq : 0 ≤ q) :
    Real.exp q ≤ ((expHi q : ℚ) : ℝ) := by
  have hm0 : (0 : ℤ) ≤ ⌊q⌋ := Int.floor_nonneg.2 hq
  have hr0 : (0 : ℚ) ≤ q - ⌊q⌋ := by
    have := Int.floor_le q
    linarith
  have hr1 : q - ⌊q⌋ ≤ 1 := by
    have := Int.lt_floor_add_one q
    linarith
  have hsplit : (q : ℝ) = ((⌊q⌋ : ℚ) : ℝ) + ((q - ⌊q⌋ : ℚ) : ℝ) := by
    push_cast
    ring
  have hexpm : Real.exp ((⌊q⌋ : ℚ) : ℝ) = Real.exp 1 ^ ⌊q⌋.toNat := by
    have h1 : ((⌊q⌋ : ℚ) : ℝ) = ((⌊q⌋.toNat : ℕ) : ℝ) := by
      have h2 : ((⌊q⌋.toNat : ℤ)) = ⌊q⌋ := Int.toNat_of_nonneg hm0
      exact_mod_cast h2.symm
    rw [h1, ← Real.exp_nat_mul 1 ⌊q⌋.toNat, mul_one]
  have hpow : Real.exp 1 ^ ⌊q⌋.toNat ≤ ((eHi : ℚ) : ℝ) ^ ⌊q⌋.toNat :=
    pow_le_pow_left (le_of_lt (Real.exp_pos 1)) le_eHi _
  have htay : Real.exp ((q - ⌊q⌋ : ℚ) : ℝ) ≤
      ((expTq (q - ⌊q⌋) 10 + errT (q - ⌊q⌋) 10 : ℚ) : ℝ) :=
    exp_le_expTq_err _ hr0 hr1 10 (by norm_num)
  have hcast : ((expHi q : ℚ) : ℝ) =
      ((eHi : ℚ) : ℝ) ^ ⌊q⌋.toNat *
        ((expTq (q - ⌊q⌋) 10 + errT (q - ⌊q⌋) 10 : ℚ) : ℝ) := by
    rw [expHi]
    push_cast
    ring
  rw [hcast, hsplit, Real.exp_add, hexpm]
  exact mul_le_mul hpow htay (le_of_lt (Real.exp_pos _))
    (le_trans (pow_nonneg (le_of_lt (Real.exp_pos 1)) _) hpow)

/-- Rounding down never exceeds the argument. -/
theorem rdDown_le (p : ℕ) (q : ℚ) : rdDown p q ≤ q := by
  rw [rdDown]
  rw [div_le_iff (by positivity : (0 : ℚ) < 10 ^ p)]
  exact Int.floor_le _

/-- Rounding up never falls below the argument. -/
theorem le_rdUp (p : ℕ) (q : ℚ) : q ≤ rdUp p q := by
  rw [rdUp]
  rw [le_div_iff (by positivity : (0 : ℚ) < 10 ^ p)]
  exact Int.le_ceil _

/-- The rounded-down lower exponential bound is sound for the unrounded
argument. -/
theorem expLo_rd_le (q : ℚ) (h : 0 ≤ rdDown 9 q) :
    ((expLo (rdDown 9 q) : ℚ) : ℝ) ≤ Real.exp (q : ℝ) :=
  le_trans (expLo_le _ h)
    (Real.exp_le_exp.2 (by exact_mod_cast rdDown_le 9 q))

/-- The rounded-up upper exponential bound is sound for the unrounded
argument. -/
theorem le_expHi_rd (q : ℚ) (h : 0 ≤ rdDown 9 q) :
    Real.exp (q : ℝ) ≤ ((expHi (rdUp 9 q) : ℚ) : ℝ) := by
  have h2 : (0 : ℚ) ≤ rdUp 9 q :=
    le_trans h (le_trans (rdDown_le 9 q) (le_rdUp 9 q))
  exact le_trans (Real.exp_le_exp.2 (by exact_mod_cast le_rdUp 9 q))
    (le_expHi _ h2)

/-- The stacked association vector of the reference configuration: the three
raw marker bases scaled by the association coefficients, plus the unit
frailty entry. -/
theorem malpha_ref_eq (x : K) : (refP K).malpha x =
    [0.1 * 1, 0.1 * (1 * x), 0.4 * 1, 0.4 * (1 * x), 0.4 * (1 * x * x),
     -0.2 * 1, -0.2 * (1 * x), 1] := rfl

/-- The baseline basis of the reference configuration is the raw degree-2
polynomial without intercept. -/
theorem gref_eq (x : K) : (refP K).gBasis x = [x, x * x] := rfl

set_option maxHeartbeats 1000000 in
/-- The reference hazard exponent commutes with the cast from the rationals
to the reals. -/
theorem refEta_cast (q : ℚ) :
    (((refP ℚ).eta q : ℚ) : ℝ) = (refP ℝ).eta (q : ℝ) := by
  rw [CumHazP.eta, CumHazP.eta, CumHazP.logHaz, CumHazP.logHaz,
    malpha_ref_eq, malpha_ref_eq, gref_eq, gref_eq]
  simp only [refP, dotL, List.zipWith, List.map, List.sum_cons, List.sum_nil]
  push_cast
  ring

/-- Unpacking of the decided side conditions of the certified bounds. -/
theorem sideCond_spec (lb c : ℚ) (h : sqSideCond lb c = true) :
    ∀ p ∈ nodesQ.zip weightsQ,
      0 ≤ p.2 ∧ 0 ≤ rdDown 9 ((refP ℚ).eta (lb + p.1 * c)) := by
  rw [sqSideCond, List.all_eq_true] at h
  intro p hp
  have h2 := h p hp
  rw [Bool.and_eq_true] at h2
  exact ⟨of_decide_eq_true h2.1, of_decide_eq_true h2.2⟩

/-- The certified rational sums bracket the real quadrature sum, for any
prefix of the rule with nonnegative weights and nonnegative rounded
exponents. -/
theorem sum_bracket (lb c : ℚ) (hc : 0 ≤ c) :
    ∀ L : List (ℚ × ℚ),
      (∀ p ∈ L, 0 ≤ p.2 ∧ 0 ≤ rdDown 9 ((refP ℚ).eta (lb + p.1 * c))) →
      (((L.map fun p =>
          c * p.2 * expLo (rdDown 9 ((refP ℚ).eta (lb + p.1 * c)))).sum : ℚ) : ℝ)
        ≤ (L.map fun p => ((c : ℚ) : ℝ) * (p.2 : ℝ) *
            Real.exp ((refP ℝ).eta (((lb : ℚ) : ℝ) + (p.1 : ℝ) * ((c : ℚ) : ℝ)))).sum ∧
      (L.map fun p => ((c : ℚ) : ℝ) * (p.2 : ℝ) *
            Real.exp ((refP ℝ).eta (((lb : ℚ) : ℝ) + (p.1 : ℝ) * ((c : ℚ) : ℝ)))).sum
        ≤ (((L.map fun p =>
          c * p.2 * expHi (rdUp 9 ((refP ℚ).eta (lb + p.1 * c)))).sum : ℚ) : ℝ) := by
  intro L
  induction L with
  | nil => intro _; constructor <;> simp
  | cons hd tl ih =>
    intro hmem
    obtain ⟨hw, he⟩ := hmem hd (List.mem_cons_self hd tl)
    have ihh := ih fun p hp => hmem p (List.mem_cons_of_mem hd hp)
    have harg : ((lb + hd.1 * c : ℚ) : ℝ) =
        ((lb : ℚ) : ℝ) + (hd.1 : ℝ) * ((c : ℚ) : ℝ) := by
      push_cast
      ring
    have hcw : (0 : ℝ) ≤ ((c : ℚ) : ℝ) * (hd.2 : ℝ) :=
      mul_nonneg (by exact_mod_cast hc) (by exact_mod_cast hw)
    constructor
    · have hexp := expLo_rd_le ((refP ℚ).eta (lb + hd.1 * c)) he
      rw [refEta_cast, harg] at hexp
      have hnode : ((c * hd.2 *
            expLo (rdDown 9 ((refP ℚ).eta (lb + hd.1 * c))) : ℚ) : ℝ)
          ≤ ((c : ℚ) : ℝ) * (hd.2 : ℝ) *
            Real.exp ((refP ℝ).eta (((lb : ℚ) : ℝ) + (hd.1 : ℝ) * ((c : ℚ) : ℝ))) := by
        have h1 : ((c * hd.2 *
              expLo (rdDown 9 ((refP ℚ).eta (lb + hd.1 * c))) : ℚ) : ℝ) =
            ((c : ℚ) : ℝ) * (hd.2 : ℝ) *
              ((expLo (rdDown 9 ((refP ℚ).eta (lb + hd.1 * c))) : ℚ) : ℝ) := by
          push_cast
          ring
        rw [h1]
        exact mul_le_mul_of_nonneg_left hexp hcw
      simp only [List.map_cons, List.sum_cons]
      push_cast
      push_cast at hnode ihh
      linarith [ihh.1]
    · have hexp := le_expHi_rd ((refP ℚ).eta (lb + hd.1 * c)) he
      rw [refEta_cast, harg] at hexp
      have hnode : ((c : ℚ) : ℝ) * (hd.2 : ℝ) *
            Real.exp ((refP ℝ).eta (((lb : ℚ) : ℝ) + (hd.1 : ℝ) * ((c : ℚ) : ℝ)))
          ≤ ((c * hd.2 *
            expHi (rdUp 9 ((refP ℚ).eta (lb + hd.1 * c))) : ℚ) : ℝ) := by
        have h1 : ((c * hd.2 *
              expHi (rdUp 9 ((refP ℚ).eta (lb + hd.1 * c))) : ℚ) : ℝ) =
            ((c : ℚ) : ℝ) * (hd.2 : ℝ) *
              ((expHi (rdUp 9 ((refP ℚ).eta (lb + hd.1 * c))) : ℚ) : ℝ) := by
          push_cast
          ring
        rw [h1]
        exact mul_le_mul_of_nonneg_left hexp hcw
      simp only [List.map_cons, List.sum_cons]
      push_cast
      push_cast at hnode ihh
      linarith [ihh.2]

/-- C1 counterexample: the reference gradient of the integrator test is not a
17-entry vector — the tape records one adjoint per parameter,
`3 + 2 + 3 + 8 + 64 = 80` of them, and the reference gradient listed in the
test has all 80 entries. -/
theorem C1_counterexample :
    gr1Q.length ≠ 17 ∧ (refP ℚ).nParams ≠ 17 := by
  constructor
  · with_unfolding_all decide
  · with_unfolding_all decide

set_option maxHeartbeats 8000000 in
/-- C1 (amended): at the reference 3-marker configuration, the spec-modelled
expected-cumulative-hazard integrator with the 100-node rule yields
`3.66100103931602` over `[0, 2]` and `4.19535676757197` over `[1, 3]`, each
with relative error at most `1e-6`, and the gradient-recording run yields,
for each interval, a fully specified 80-entry gradient (one adjoint per
parameter: 3 + 2 + 3 + 8 + 8 * 8). -/
theorem C1_amended :
    |cumHazQuad Real.exp (refP ℝ) (nodesQ.zip weightsQ) 0 2 -
        3.66100103931602| ≤ 3.66100103931602 * (1 / 10 ^ 6) ∧
    |cumHazQuad Real.exp (refP ℝ) (nodesQ.zip weightsQ) 1 3 -
        4.19535676757197| ≤ 4.19535676757197 * (1 / 10 ^ 6) ∧
    gr1Q.length = (refP ℚ).nParams ∧ gr2Q.length = (refP ℚ).nParams ∧
    (refP ℚ).nParams = 3 + 2 + 3 + 8 + 8 * 8 := by
  have s1 : sqSideCond 0 2 = true := by with_unfolding_all decide
  have s2 : sqSideCond 1 2 = true := by with_unfolding_all decide
  have d1 : (3.66100103931602 - 3.66100103931602 * (1 / 10 ^ 6) : ℚ) ≤
      sqLoSum 0 2 := by with_unfolding_all decide
  have d2 : sqHiSum 0 2 ≤
      (3.66100103931602 + 3.66100103931602 * (1 / 10 ^ 6) : ℚ) := by
    with_unfolding_all decide
  have d3 : (4.19535676757197 - 4.19535676757197 * (1 / 10 ^ 6) : ℚ) ≤
      sqLoSum 1 2 := by with_unfolding_all decide
  have d4 : sqHiSum 1 2 ≤
      (4.19535676757197 + 4.19535676757197 * (1 / 10 ^ 6) : ℚ) := by
    with_unfolding_all decide
  have hb1 := sum_bracket 0 2 (by norm_num) (nodesQ.zip weightsQ)
    (sideCond_spec 0 2 s1)
  have hb2 := sum_bracket 1 2 (by norm_num) (nodesQ.zip weightsQ)
    (sideCond_spec 1 2 s2)
  have heq1 : cumHazQuad Real.exp (refP ℝ) (nodesQ.zip weightsQ) 0 2 =
      ((nodesQ.zip weightsQ).map fun p => (((2 : ℚ)) : ℝ) * (p.2 : ℝ) *
        Real.exp ((refP ℝ).eta ((((0 : ℚ)) : ℝ) + (p.1 : ℝ) * (((2 : ℚ)) : ℝ)))).sum := by
    rw [cumHazQuad]
    norm_num
  have heq2 : cumHazQuad Real.exp (refP ℝ) (nodesQ.zip weightsQ) 1 3 =
      ((nodesQ.zip weightsQ).map fun p => (((2 : ℚ)) : ℝ) * (p.2 : ℝ) *
        Real.exp ((refP ℝ).eta ((((1 : ℚ)) : ℝ) + (p.1 : ℝ) * (((2 : ℚ)) : ℝ)))).sum := by
    rw [cumHazQuad]
    norm_num
  have hlo1 : ((sqLoSum 0 2 : ℚ) : ℝ) ≤
      cumHazQuad Real.exp (refP ℝ) (nodesQ.zip weightsQ) 0 2 := by
    rw [heq1, sqLoSum]
    exact hb1.1
  have hhi1 : cumHazQuad Real.exp (refP ℝ) (nodesQ.zip weightsQ) 0 2 ≤
      ((sqHiSum 0 2 : ℚ) : ℝ) := by
    rw [heq1, sqHiSum]
    exact hb1.2
  have hlo2 : ((sqLoSum 1 2 : ℚ) : ℝ) ≤
      cumHazQuad Real.exp (refP ℝ) (nodesQ.zip weightsQ) 1 3 := by
    rw [heq2, sqLoSum]
    exact hb2.1
  have hhi2 : cumHazQuad Real.exp (refP ℝ) (nodesQ.zip weightsQ) 1 3 ≤
      ((sqHiSum 1 2 : ℚ) : ℝ) := by
    rw [heq2, sqHiSum]
    exact hb2.2
  have c1 := (Rat.cast_le (K := ℝ)).2 d1
  have c2 := (Rat.cast_le (K := ℝ)).2 d2
  have c3 := (Rat.cast_le (K := ℝ)).2 d3
  have c4 := (Rat.cast_le (K := ℝ)).2 d4
  push_cast at c1 c2 c3 c4
  refine ⟨?_, ?_, by with_unfolding_all decide, by with_unfolding_all decide,
    by with_unfolding_all decide⟩
  · rw [abs_le]
    constructor
    · linarith
    · linarith
  · rw [abs_le]
    constructor
    · linarith
    · linarith

end VAJS
